import Mathlib

/-!
# Resource table, agents and deadlock detector of `src/main.cpp`

A shallow embedding of the shared allocation table of `main.cpp` and of the
operations that run under its mutex: `tryRequestResources`, the locked body of
`rogueThread`, `releaseResources` and one iteration of `deadlockDetector`.

Modelling conventions.
* The vectors have fixed sizes (`NUM_THREADS + 1` rows, `NUM_RESOURCES`
  columns), so they are total functions on `Fin`; `v[i] = x` is a pointwise
  update (`set1`, `set2`, `setB`).
* Table entries are C++ `int`. Signed overflow is undefined behaviour, so the
  arithmetic is modelled on `Int`.
* The random kind drawn by `tryRequestResources` (`dist(gen)`) is a parameter.
* `for` loops over kinds or agents are folds over `List.finRange`; a loop that
  leaves by `break` on the first hit is `List.all`, `List.any` or `List.find?`.
* The local `int victim = -1` is an `Option`; the global `killedThread` stays
  an `Int` with `-1` for "none".
* Console output is not part of the state.
-/

namespace Deadlock

/-- Number of resource kinds, `const int NUM_RESOURCES = 3;`. -/
abbrev NUM_RESOURCES : Nat := 3

/-- Number of worker threads, `const int NUM_THREADS = 7;` (the rogue is one more, at index 7). -/
abbrev NUM_THREADS : Nat := 7

/-- Agent indices `0 .. NUM_THREADS`. -/
abbrev Tid := Fin (NUM_THREADS + 1)

/-- Resource kind indices `0 .. NUM_RESOURCES - 1`. -/
abbrev Res := Fin NUM_RESOURCES

/-- The rows of the global `maxDemand`. -/
def maxDemandRows : List (List Int) :=
  [[2, 1, 1], [1, 1, 1], [1, 2, 1], [1, 1, 2], [2, 1, 1], [1, 2, 2], [2, 1, 2], [3, 2, 2]]

/-- Entry `maxDemand[t][r]` of the global table. -/
def maxDemand (t : Tid) (r : Res) : Int :=
  (maxDemandRows.getD t.val []).getD r.val 0

/-- The shared state: the global vectors and the two detector outputs. -/
@[ext]
structure State where
  available : Res → Int
  allocation : Tid → Res → Int
  need : Tid → Res → Int
  request : Tid → Res → Int
  threadAlive : Tid → Bool
  isHolding : Tid → Bool
  deadlockDetected : Bool
  killedThread : Int

/-- Assignment `v[r] = x` on a vector indexed by kind. -/
def set1 (v : Res → Int) (r : Res) (x : Int) : Res → Int :=
  fun j => if j = r then x else v j

/-- Assignment `m[t][r] = x` on a table indexed by agent and kind. -/
def set2 (m : Tid → Res → Int) (t : Tid) (r : Res) (x : Int) : Tid → Res → Int :=
  fun i j => if i = t ∧ j = r then x else m i j

/-- Assignment `v[t] = b` on a `vector<bool>` indexed by agent. -/
def setB (v : Tid → Bool) (t : Tid) (b : Bool) : Tid → Bool :=
  fun i => if i = t then b else v i

/-- The values of `available = { 3, 2, 2 }`. -/
def initialAvailable : List Int := [3, 2, 2]

/-- The "Reset data" block of `main` (lines 288-298). -/
def reset : State where
  available := fun r => initialAvailable.getD r.val 0
  allocation := fun _ _ => 0
  need := maxDemand
  request := fun _ _ => 0
  threadAlive := fun _ => true
  isHolding := fun _ => false
  deadlockDetected := false
  killedThread := -1

/-- Total capacity of a kind: what `available` is reset to. -/
def total (r : Res) : Int := reset.available r

/-- The function `tryRequestResources(tid)` with the drawn kind `r` as a parameter: the new
state and the returned flag. -/
def tryRequestResources (s : State) (tid : Tid) (r : Res) : State × Bool :=
  if !s.threadAlive tid then (s, false)
  else if s.need tid r > 0 ∧ s.available r > 0 then
    let s1 := { s with request := set2 s.request tid r 1 }
    let s2 := { s1 with available := set1 s1.available r (s1.available r - 1) }
    let s3 := { s2 with allocation := set2 s2.allocation tid r (s2.allocation tid r + 1) }
    let s4 := { s3 with need := set2 s3.need tid r (s3.need tid r - 1) }
    let s5 := { s4 with request := set2 s4.request tid r 0 }
    ({ s5 with isHolding := setB s5.isHolding tid true }, true)
  else
    let s1 := { s with request := set2 s.request tid r 1 }
    ({ s1 with isHolding := setB s1.isHolding tid false }, false)

/-- One iteration of the loop body of `releaseResources` (lines 76-79). -/
def releaseStep (tid : Tid) (s : State) (i : Res) : State :=
  let s1 := { s with available := set1 s.available i (s.available i + s.allocation tid i) }
  let s2 := { s1 with need := set2 s1.need tid i (s1.need tid i + s1.allocation tid i) }
  let s3 := { s2 with allocation := set2 s2.allocation tid i 0 }
  { s3 with request := set2 s3.request tid i 0 }

/-- The function `releaseResources(tid)`. -/
def releaseResources (s : State) (tid : Tid) : State :=
  let s1 := (List.finRange NUM_RESOURCES).foldl (releaseStep tid) s
  { s1 with isHolding := setB s1.isHolding tid false }

/-- The rogue's index, `int tid = NUM_THREADS;`. -/
def rogueTid : Tid := Fin.last NUM_THREADS

/-- The `canRequestAll` loop of `rogueThread` (lines 111-117). -/
def canRequestAll (s : State) (tid : Tid) : Bool :=
  (List.finRange NUM_RESOURCES).all fun r => !(decide (s.need tid r ≤ 0) || decide (s.available r ≤ 0))

/-- One iteration of the granting loop of `rogueThread` (lines 120-123). -/
def rogueGrantStep (tid : Tid) (s : State) (r : Res) : State :=
  let s1 := { s with available := set1 s.available r (s.available r - 1) }
  let s2 := { s1 with allocation := set2 s1.allocation tid r (s1.allocation tid r + 1) }
  let s3 := { s2 with need := set2 s2.need tid r (s2.need tid r - 1) }
  { s3 with request := set2 s3.request tid r 0 }

/-- One iteration of the loop on line 132 of `rogueThread`. -/
def rogueMarkStep (tid : Tid) (s : State) (r : Res) : State :=
  { s with request := set2 s.request tid r 1 }

/-- The part of `rogueThread` that runs under the mutex (lines 110-126 and
131-134): the new state and whether the all-kinds acquisition was granted.
The `threadAlive` test of line 106 is made before the mutex is taken and is
not part of this body. -/
def rogueAttempt (s : State) : State × Bool :=
  let tid := rogueTid
  if canRequestAll s tid then
    let s1 := (List.finRange NUM_RESOURCES).foldl (rogueGrantStep tid) s
    ({ s1 with isHolding := setB s1.isHolding tid true }, true)
  else
    let s1 := (List.finRange NUM_RESOURCES).foldl (rogueMarkStep tid) s
    ({ s1 with isHolding := setB s1.isHolding tid false }, false)

/-- The detector's `totalAvailable` (lines 150-152). -/
def totalAvailable (s : State) : Int :=
  (List.finRange NUM_RESOURCES).foldl (fun acc r => acc + s.available r) 0

/-- The detector's `totalRequesting` (lines 149-156): the nested loops, kinds
outside and agents `0 .. NUM_THREADS` inside. -/
def totalRequesting (s : State) : Int :=
  (List.finRange NUM_RESOURCES).foldl
    (fun acc r =>
      (List.finRange (NUM_THREADS + 1)).foldl
        (fun acc2 t => if s.request t r = 1 then acc2 + 1 else acc2) acc)
    0

/-- The `waiting` flag of lines 181-187 for agent `t`. -/
def waiting (s : State) (t : Tid) : Bool :=
  (List.finRange NUM_RESOURCES).any fun r => decide (s.request t r = 1)

/-- The victim search of lines 178-193: the first agent in ascending order
that is alive and waiting, `none` for `victim == -1`. -/
def findVictim (s : State) : Option Tid :=
  (List.finRange (NUM_THREADS + 1)).find? fun t => s.threadAlive t && waiting s t

/-- One iteration of the reclaiming loop of the detector (lines 199-202). -/
def evictStep (victim : Tid) (s : State) (r : Res) : State :=
  let s1 := { s with available := set1 s.available r (s.available r + s.allocation victim r) }
  let s2 := { s1 with allocation := set2 s1.allocation victim r 0 }
  let s3 := { s2 with need := set2 s2.need victim r (maxDemand victim r) }
  { s3 with request := set2 s3.request victim r 0 }

/-- The eviction branch of the detector (lines 197-205). -/
def evict (s : State) (victim : Tid) : State :=
  let s1 := { s with threadAlive := setB s.threadAlive victim false }
  let s2 := (List.finRange NUM_RESOURCES).foldl (evictStep victim) s1
  let s3 := { s2 with isHolding := setB s2.isHolding victim false }
  { s3 with killedThread := (victim.val : Int) }

/-- One iteration of `deadlockDetector` under the mutex (lines 147-214). -/
def deadlockDetectorCycle (s : State) : State :=
  if totalRequesting s > totalAvailable s then
    let s1 := { s with deadlockDetected := true }
    match findVictim s1 with
    | some victim => evict s1 victim
    | none => s1
  else
    { s with deadlockDetected := false, killedThread := -1 }

/-- A table operation: what one holder of the mutex does. -/
inductive Op where
  | tryRequest (tid : Tid) (r : Res)
  | rogue
  | release (tid : Tid)
  | detect
  deriving DecidableEq

/-- The state after one table operation. -/
def applyOp (s : State) : Op → State
  | Op.tryRequest tid r => (tryRequestResources s tid r).1
  | Op.rogue => (rogueAttempt s).1
  | Op.release tid => releaseResources s tid
  | Op.detect => deadlockDetectorCycle s

/-- The state after a sequence of table operations, in order. -/
def run (s : State) (ops : List Op) : State :=
  ops.foldl applyOp s

/-! ## Quantities and predicates used in the statements -/

/-- Closed form of the state after a granted `tryRequestResources`; shown equal to the
result of the code in `tryRequestResources_grant`. -/
def grantedState (s : State) (tid : Tid) (r : Res) : State :=
  { available := fun j => if j = r then s.available j - 1 else s.available j
    allocation := fun t j => if t = tid ∧ j = r then s.allocation t j + 1 else s.allocation t j
    need := fun t j => if t = tid ∧ j = r then s.need t j - 1 else s.need t j
    request := fun t j => if t = tid ∧ j = r then 0 else s.request t j
    threadAlive := s.threadAlive
    isHolding := fun t => if t = tid then true else s.isHolding t
    deadlockDetected := s.deadlockDetected
    killedThread := s.killedThread }

/-- Closed form of the state after a refused `tryRequestResources`; shown equal to the
result of the code in `tryRequestResources_refuse`. -/
def refusedState (s : State) (tid : Tid) (r : Res) : State :=
  { s with
    request := fun t j => if t = tid ∧ j = r then 1 else s.request t j
    isHolding := fun t => if t = tid then false else s.isHolding t }

/-- Units of kind `r` held by all agents `0 .. NUM_THREADS` together. -/
def heldTotal (s : State) (r : Res) : Int := ∑ t : Tid, s.allocation t r

/-- Every unit is either available or allocated. -/
def Conserved (s : State) : Prop := ∀ r, s.available r + heldTotal s r = total r

/-- Allocation and need add up to the agent's ceiling. -/
def NeedConsistent (s : State) : Prop :=
  ∀ t r, s.allocation t r + s.need t r = maxDemand t r

/-- No entry of `need`, `allocation` or `available` is negative. -/
def NonNeg (s : State) : Prop :=
  (∀ t r, 0 ≤ s.need t r) ∧ (∀ t r, 0 ≤ s.allocation t r) ∧ ∀ r, 0 ≤ s.available r

/-- Agent `t` has at least one pending flag. -/
def Pending (s : State) (t : Tid) : Prop := ∃ r, s.request t r = 1

instance decidablePending (s : State) (t : Tid) : Decidable (Pending s t) :=
  inferInstanceAs (Decidable (∃ r, s.request t r = 1))

/-- Number of (agent, kind) pairs whose pending flag is 1, over all agents. -/
def pendingPairs (s : State) : Nat :=
  (Finset.univ.filter fun p : Tid × Res => s.request p.1 p.2 = 1).card

/-- The path condition of the eviction branch of the detector with victim `v`:
the test of line 175 passes and the search of lines 178-193 ends on `v`. -/
def Evicts (s : State) (v : Tid) : Prop :=
  totalRequesting s > totalAvailable s ∧ findVictim { s with deadlockDetected := true } = some v

instance decidableEvicts (s : State) (v : Tid) : Decidable (Evicts s v) :=
  inferInstanceAs (Decidable (_ ∧ _))

/-- A run in which agent 0 is refused kind 1, then granted kind 0, and two
more agents are refused kind 1 while the rogue and agent 1 hold units. -/
def holdAndWaitOps : List Op :=
  [Op.rogue, Op.tryRequest 1 1, Op.tryRequest 0 1, Op.tryRequest 0 0, Op.tryRequest 2 1,
    Op.tryRequest 3 1]

/-- The seven workers drain the table, then the rogue's attempt is refused. -/
def drainOps : List Op :=
  [Op.tryRequest 0 0, Op.tryRequest 1 0, Op.tryRequest 2 0, Op.tryRequest 3 1, Op.tryRequest 4 1,
    Op.tryRequest 5 2, Op.tryRequest 6 2, Op.rogue]

/-- The seven workers release what they hold. -/
def workersReleaseOps : List Op :=
  [Op.release 0, Op.release 1, Op.release 2, Op.release 3, Op.release 4, Op.release 5,
    Op.release 6]

/-- Units held by agent `t`, all kinds together. -/
def heldBy (s : State) (t : Tid) : Int := ∑ r : Res, s.allocation t r

/-- The holding flag of every agent tells whether it holds at least one unit. -/
def HoldingInv (s : State) : Prop := ∀ t, s.isHolding t = true ↔ heldBy s t > 0

/-- Agent 1 is granted kind 0, which exhausts its need of that kind. -/
def agentOneHoldsOps : List Op := [Op.tryRequest 1 0]

/-- The table of Scenario B: every kind has one unit, agents 0 and 1 may each
take one unit of every kind and hold nothing yet; the other six rows of the
fixed-size table are not used (dead, needing nothing). -/
def scenarioB : State where
  available := fun _ => 1
  allocation := fun _ _ => 0
  need := fun t _ => if t.val < 2 then 1 else 0
  request := fun _ _ => 0
  threadAlive := fun t => decide (t.val < 2)
  isHolding := fun _ => false
  deadlockDetected := false
  killedThread := -1

/-- Scenario B: agent 0 takes kind 0, agent 1 takes kind 1, then each asks for
the kind the other holds. -/
def scenarioBOps : List Op :=
  [Op.tryRequest 0 0, Op.tryRequest 1 1, Op.tryRequest 0 1, Op.tryRequest 1 0]

/-- The run of `drainOps`, the detector iteration that evicts the rogue, and
the rogue's locked body run after that eviction. -/
def staleVictimOps : List Op := drainOps ++ [Op.detect, Op.rogue]

/-! ## The loops of the threads

One step of a thread is what it does between two points where another thread
can run: the poll of the flags at the head of its loop, or one critical
section. Sleeps do not change the state and are not steps. `simulationActive`
is true for the whole run. -/

/-- Where an agent thread stands in the loop of `workerThread` or
`rogueThread`: at the poll of line 87 (106), past the poll and about to make
its attempt, or granted and sleeping before `releaseResources`. -/
inductive Pc where
  | head
  | attempt
  | hold
  deriving DecidableEq

/-- Where the detector thread stands in the loop of `deadlockDetector`: at the
poll of line 143, or past it and about to scan. -/
inductive DetectorPc where
  | head
  | scan
  deriving DecidableEq

/-- The table together with the `running` flag and the position of every
thread. -/
structure Sys where
  table : State
  running : Bool
  pc : Tid → Pc
  detectorPc : DetectorPc

/-- Move agent `t` to position `p`. -/
def setPc (pc : Tid → Pc) (t : Tid) (p : Pc) : Tid → Pc :=
  fun i => if i = t then p else pc i

/-- One step of `workerThread(tid)`; `r` is the kind drawn if the step is an
attempt. -/
def workerThread (σ : Sys) (tid : Tid) (r : Res) : Sys :=
  match σ.pc tid with
  | Pc.head =>
    if !σ.running || !σ.table.threadAlive tid then σ
    else { σ with pc := setPc σ.pc tid Pc.attempt }
  | Pc.attempt =>
    if (tryRequestResources σ.table tid r).2 then
      { σ with table := (tryRequestResources σ.table tid r).1, pc := setPc σ.pc tid Pc.hold }
    else
      { σ with table := (tryRequestResources σ.table tid r).1, pc := setPc σ.pc tid Pc.head }
  | Pc.hold =>
    { σ with table := releaseResources σ.table tid, pc := setPc σ.pc tid Pc.head }

/-- One step of `rogueThread`. -/
def rogueThread (σ : Sys) : Sys :=
  let tid := rogueTid
  match σ.pc tid with
  | Pc.head =>
    if !σ.running || !σ.table.threadAlive tid then σ
    else { σ with pc := setPc σ.pc tid Pc.attempt }
  | Pc.attempt =>
    if (rogueAttempt σ.table).2 then
      { σ with table := (rogueAttempt σ.table).1, pc := setPc σ.pc tid Pc.hold }
    else
      { σ with table := (rogueAttempt σ.table).1, pc := setPc σ.pc tid Pc.head }
  | Pc.hold =>
    { σ with table := releaseResources σ.table tid, pc := setPc σ.pc tid Pc.head }

/-- One step of `deadlockDetector`. -/
def deadlockDetector (σ : Sys) : Sys :=
  match σ.detectorPc with
  | DetectorPc.head =>
    if !σ.running then σ else { σ with detectorPc := DetectorPc.scan }
  | DetectorPc.scan =>
    { σ with table := deadlockDetectorCycle σ.table, detectorPc := DetectorPc.head }

/-- Who takes the next step: worker `tid` (`workerThread` is started for
`0 .. NUM_THREADS - 1`), the rogue, the detector, or the user pressing Stop
(line 318) or Start during a run (line 313). -/
inductive Action where
  | worker (tid : Fin NUM_THREADS) (r : Res)
  | rogue
  | detector
  | pause
  | resume
  deriving DecidableEq

/-- The state after one step. -/
def sysStep (σ : Sys) : Action → Sys
  | Action.worker tid r => workerThread σ tid.castSucc r
  | Action.rogue => rogueThread σ
  | Action.detector => deadlockDetector σ
  | Action.pause => { σ with running := false }
  | Action.resume => { σ with running := true }

/-- The state when the threads are launched (lines 284-308): the reset table,
`running = true`, every thread at the head of its loop. -/
def start : Sys where
  table := reset
  running := true
  pc := fun _ => Pc.head
  detectorPc := DetectorPc.head

/-- The state after a sequence of steps, in order. -/
def runSys (σ : Sys) (acts : List Action) : Sys :=
  acts.foldl sysStep σ

/-- What agent `t` may hold at position `p`: nothing unless it is in a hold,
at most one unit of each kind, and at most one unit in all unless it is the
rogue. -/
def AgentOk (p : Pc) (row : Res → Int) (t : Tid) : Prop :=
  (p ≠ Pc.hold → ∀ r, row r = 0) ∧ (∀ r, 0 ≤ row r ∧ row r ≤ 1) ∧
    (t ≠ rogueTid → row 0 + row 1 + row 2 ≤ 1)

/-- Every agent holds what its position allows. -/
def SysInv (σ : Sys) : Prop := ∀ t, AgentOk (σ.pc t) (σ.table.allocation t) t

/-- Worker 0 polls, is granted kind 0, and the user presses Stop during its
hold. -/
def pausedHoldTrace : List Action :=
  [Action.worker 0 0, Action.worker 0 0, Action.pause]

/-- Worker 0 polls and the user presses Stop before its attempt. -/
def pausedAttemptTrace : List Action :=
  [Action.worker 0 0, Action.pause]

/-- The rogue and workers 3 to 6 take all seven units; workers 0, 1 and 2 are
each refused kinds 0, 1 and 2; then the five holders release. -/
def overReportTrace : List Action :=
  [Action.rogue, Action.rogue,
    Action.worker 3 0, Action.worker 3 0, Action.worker 4 0, Action.worker 4 0,
    Action.worker 5 1, Action.worker 5 1, Action.worker 6 2, Action.worker 6 2,
    Action.worker 0 0, Action.worker 0 0, Action.worker 0 1, Action.worker 0 1,
    Action.worker 0 2, Action.worker 0 2,
    Action.worker 1 0, Action.worker 1 0, Action.worker 1 1, Action.worker 1 1,
    Action.worker 1 2, Action.worker 1 2,
    Action.worker 2 0, Action.worker 2 0, Action.worker 2 1, Action.worker 2 1,
    Action.worker 2 2, Action.worker 2 2,
    Action.rogue, Action.worker 3 0, Action.worker 4 0, Action.worker 5 0, Action.worker 6 0]

/-! ## Closed forms of the loops -/

theorem finRange_kinds : List.finRange NUM_RESOURCES = [0, 1, 2] := rfl

theorem finRange_agents : List.finRange (NUM_THREADS + 1) = [0, 1, 2, 3, 4, 5, 6, 7] := rfl

theorem res_cases (r : Res) : r = 0 ∨ r = 1 ∨ r = 2 := by
  revert r
  decide

/-- The effect of `releaseResources`, entry by entry. -/
theorem releaseResources_eq (s : State) (tid : Tid) :
    releaseResources s tid =
      { available := fun r => s.available r + s.allocation tid r
        allocation := fun t r => if t = tid then 0 else s.allocation t r
        need := fun t r => if t = tid then s.need t r + s.allocation t r else s.need t r
        request := fun t r => if t = tid then 0 else s.request t r
        threadAlive := s.threadAlive
        isHolding := fun t => if t = tid then false else s.isHolding t
        deadlockDetected := s.deadlockDetected
        killedThread := s.killedThread } := by
  simp only [releaseResources, finRange_kinds, List.foldl_cons, List.foldl_nil, releaseStep]
  ext1
  · funext r
    rcases res_cases r with rfl | rfl | rfl <;> simp [set1, set2]
  · funext t r
    by_cases h : t = tid <;> rcases res_cases r with rfl | rfl | rfl <;> simp [set1, set2, h]
  · funext t r
    by_cases h : t = tid <;> rcases res_cases r with rfl | rfl | rfl <;> simp [set1, set2, h]
  · funext t r
    by_cases h : t = tid <;> rcases res_cases r with rfl | rfl | rfl <;> simp [set1, set2, h]
  · rfl
  · funext t
    simp [setB]
  · rfl
  · rfl

/-- The `canRequestAll` flag is set exactly when every kind passes both tests. -/
theorem canRequestAll_iff (s : State) (tid : Tid) :
    canRequestAll s tid = true ↔ ∀ r, s.need tid r > 0 ∧ s.available r > 0 := by
  simp only [canRequestAll, List.all_eq_true, List.mem_finRange, true_implies]
  constructor
  · intro h r
    have := h r
    simp only [Bool.not_eq_true', Bool.or_eq_false_iff, decide_eq_false_iff_not, not_le] at this
    exact this
  · intro h r
    have := h r
    simp only [Bool.not_eq_true', Bool.or_eq_false_iff, decide_eq_false_iff_not, not_le]
    exact this

/-- The effect of the granting loop of `rogueThread`, entry by entry. -/
theorem rogueGrant_eq (s : State) (tid : Tid) :
    (List.finRange NUM_RESOURCES).foldl (rogueGrantStep tid) s =
      { available := fun r => s.available r - 1
        allocation := fun t r => if t = tid then s.allocation t r + 1 else s.allocation t r
        need := fun t r => if t = tid then s.need t r - 1 else s.need t r
        request := fun t r => if t = tid then 0 else s.request t r
        threadAlive := s.threadAlive
        isHolding := s.isHolding
        deadlockDetected := s.deadlockDetected
        killedThread := s.killedThread } := by
  simp only [finRange_kinds, List.foldl_cons, List.foldl_nil, rogueGrantStep]
  ext1
  · funext r
    rcases res_cases r with rfl | rfl | rfl <;> simp [set1, set2]
  · funext t r
    by_cases h : t = tid <;> rcases res_cases r with rfl | rfl | rfl <;> simp [set1, set2, h]
  · funext t r
    by_cases h : t = tid <;> rcases res_cases r with rfl | rfl | rfl <;> simp [set1, set2, h]
  · funext t r
    by_cases h : t = tid <;> rcases res_cases r with rfl | rfl | rfl <;> simp [set1, set2, h]
  all_goals rfl

/-- The effect of the marking loop of `rogueThread`, entry by entry. -/
theorem rogueMark_eq (s : State) (tid : Tid) :
    (List.finRange NUM_RESOURCES).foldl (rogueMarkStep tid) s =
      { s with request := fun t r => if t = tid then 1 else s.request t r } := by
  simp only [finRange_kinds, List.foldl_cons, List.foldl_nil, rogueMarkStep]
  ext1
  case request =>
    funext t r
    by_cases h : t = tid <;> rcases res_cases r with rfl | rfl | rfl <;> simp [set2, h]
  all_goals rfl

/-- The effect of the eviction branch, entry by entry. -/
theorem evict_eq (s : State) (v : Tid) :
    evict s v =
      { available := fun r => s.available r + s.allocation v r
        allocation := fun t r => if t = v then 0 else s.allocation t r
        need := fun t r => if t = v then maxDemand v r else s.need t r
        request := fun t r => if t = v then 0 else s.request t r
        threadAlive := fun t => if t = v then false else s.threadAlive t
        isHolding := fun t => if t = v then false else s.isHolding t
        deadlockDetected := s.deadlockDetected
        killedThread := (v.val : Int) } := by
  simp only [evict, finRange_kinds, List.foldl_cons, List.foldl_nil, evictStep]
  ext1
  · funext r
    rcases res_cases r with rfl | rfl | rfl <;> simp [set1, set2]
  · funext t r
    by_cases h : t = v <;> rcases res_cases r with rfl | rfl | rfl <;> simp [set1, set2, h]
  · funext t r
    by_cases h : t = v <;> rcases res_cases r with rfl | rfl | rfl <;> simp [set1, set2, h]
  · funext t r
    by_cases h : t = v <;> rcases res_cases r with rfl | rfl | rfl <;> simp [set1, set2, h]
  · funext t
    simp [setB]
  · funext t
    simp [setB]
  all_goals rfl

theorem tryRequestResources_dead (s : State) (tid : Tid) (r : Res)
    (h : s.threadAlive tid = false) : tryRequestResources s tid r = (s, false) := by
  simp [tryRequestResources, h]

theorem tryRequestResources_grant (s : State) (tid : Tid) (r : Res)
    (h : s.threadAlive tid = true) (hc : s.need tid r > 0 ∧ s.available r > 0) :
    tryRequestResources s tid r = (grantedState s tid r, true) := by
  simp only [tryRequestResources, h, Bool.not_true, Bool.false_eq_true, if_false, hc, and_self,
    if_true, Prod.mk.injEq, and_true]
  ext1
  · funext j
    by_cases hj : j = r <;> simp [grantedState, set1, hj]
  · funext t j
    by_cases hj : t = tid ∧ j = r
    · obtain ⟨rfl, rfl⟩ := hj
      simp [grantedState, set2]
    · simp [grantedState, set2, hj]
  · funext t j
    by_cases hj : t = tid ∧ j = r
    · obtain ⟨rfl, rfl⟩ := hj
      simp [grantedState, set2]
    · simp [grantedState, set2, hj]
  · funext t j
    by_cases hj : t = tid ∧ j = r <;> simp [grantedState, set2, hj]
  · rfl
  · funext t
    simp [grantedState, setB]
  all_goals rfl

theorem tryRequestResources_refuse (s : State) (tid : Tid) (r : Res)
    (h : s.threadAlive tid = true) (hc : ¬ (s.need tid r > 0 ∧ s.available r > 0)) :
    tryRequestResources s tid r = (refusedState s tid r, false) := by
  simp only [tryRequestResources, h, Bool.not_true, Bool.false_eq_true, if_false, hc,
    Prod.mk.injEq, and_true]
  rfl

/-- The three outcomes of `tryRequestResources`. -/
theorem tryRequestResources_cases (s : State) (tid : Tid) (r : Res) :
    tryRequestResources s tid r = (s, false) ∨
    (s.threadAlive tid = true ∧ (s.need tid r > 0 ∧ s.available r > 0) ∧
      tryRequestResources s tid r = (grantedState s tid r, true)) ∨
    (s.threadAlive tid = true ∧ ¬ (s.need tid r > 0 ∧ s.available r > 0) ∧
      tryRequestResources s tid r = (refusedState s tid r, false)) := by
  cases h : s.threadAlive tid
  · exact Or.inl (tryRequestResources_dead s tid r h)
  · by_cases hc : s.need tid r > 0 ∧ s.available r > 0
    · exact Or.inr (Or.inl ⟨rfl, hc, tryRequestResources_grant s tid r h hc⟩)
    · exact Or.inr (Or.inr ⟨rfl, hc, tryRequestResources_refuse s tid r h hc⟩)

/-- The state after a granted all-kinds attempt of the rogue, entry by entry. -/
theorem rogueAttempt_grant (s : State) (h : canRequestAll s rogueTid = true) :
    rogueAttempt s =
      ({ available := fun r => s.available r - 1
         allocation := fun t r => if t = rogueTid then s.allocation t r + 1 else s.allocation t r
         need := fun t r => if t = rogueTid then s.need t r - 1 else s.need t r
         request := fun t r => if t = rogueTid then 0 else s.request t r
         threadAlive := s.threadAlive
         isHolding := fun t => if t = rogueTid then true else s.isHolding t
         deadlockDetected := s.deadlockDetected
         killedThread := s.killedThread }, true) := by
  simp only [rogueAttempt, h, if_true, rogueGrant_eq, Prod.mk.injEq, and_true]
  ext1
  case isHolding =>
    funext t
    simp [setB]
  all_goals rfl

/-- The state after a refused all-kinds attempt of the rogue, entry by entry. -/
theorem rogueAttempt_refuse (s : State) (h : canRequestAll s rogueTid = false) :
    rogueAttempt s =
      ({ s with
         request := fun t r => if t = rogueTid then 1 else s.request t r
         isHolding := fun t => if t = rogueTid then false else s.isHolding t }, false) := by
  simp only [rogueAttempt, h, Bool.false_eq_true, if_false, rogueMark_eq, Prod.mk.injEq, and_true]
  ext1
  case isHolding =>
    funext t
    simp [setB]
  all_goals rfl

/-- The victim search does not read `deadlockDetected`. -/
theorem findVictim_flag (s : State) (b : Bool) :
    findVictim { s with deadlockDetected := b } = findVictim s := rfl

/-- The three paths through one detector iteration. -/
theorem deadlockDetectorCycle_cases (s : State) :
    (¬ totalRequesting s > totalAvailable s ∧
      deadlockDetectorCycle s = { s with deadlockDetected := false, killedThread := -1 }) ∨
    (totalRequesting s > totalAvailable s ∧ findVictim s = none ∧
      deadlockDetectorCycle s = { s with deadlockDetected := true }) ∨
    (∃ v, totalRequesting s > totalAvailable s ∧ findVictim s = some v ∧
      deadlockDetectorCycle s = evict { s with deadlockDetected := true } v) := by
  by_cases h : totalRequesting s > totalAvailable s
  · cases hv : findVictim s with
    | none =>
      refine Or.inr (Or.inl ⟨h, rfl, ?_⟩)
      simp only [deadlockDetectorCycle, h, if_true, findVictim_flag, hv]
    | some v =>
      refine Or.inr (Or.inr ⟨v, h, rfl, ?_⟩)
      simp only [deadlockDetectorCycle, h, if_true, findVictim_flag, hv]
  · refine Or.inl ⟨h, ?_⟩
    simp only [deadlockDetectorCycle, h, if_false]

/-! ## Invariants of the table -/

theorem maxDemand_nonneg : ∀ (t : Tid) (r : Res), 0 ≤ maxDemand t r := by decide

/-- Replacing one agent's entry changes the column sum by the difference. -/
theorem sum_replace (f g : Tid → Int) (tid : Tid) :
    ∑ t : Tid, (if t = tid then f t else g t) = ∑ t : Tid, g t + (f tid - g tid) := by
  have h : ∀ t : Tid,
      (if t = tid then f t else g t) = g t + (if t = tid then f tid - g tid else 0) := by
    intro t
    by_cases ht : t = tid
    · subst ht
      simp
    · simp [ht]
  simp only [h, Finset.sum_add_distrib, Finset.sum_ite_eq', Finset.mem_univ, if_true]

theorem conserved_reset : Conserved reset := by
  intro r
  simp [heldTotal, total, reset]

theorem conserved_granted (s : State) (tid : Tid) (r : Res) (h : Conserved s) :
    Conserved (grantedState s tid r) := by
  intro j
  have hj := h j
  simp only [heldTotal, grantedState] at hj ⊢
  by_cases e : j = r
  · subst e
    simp only [and_true, if_true]
    rw [sum_replace (fun t => s.allocation t j + 1) (fun t => s.allocation t j) tid]
    omega
  · simp only [e, and_false, if_false]
    exact hj

theorem conserved_release (s : State) (tid : Tid) (h : Conserved s) :
    Conserved (releaseResources s tid) := by
  intro j
  have hj := h j
  rw [releaseResources_eq]
  simp only [heldTotal] at hj ⊢
  rw [sum_replace (fun _ => 0) (fun t => s.allocation t j) tid]
  omega

theorem conserved_evict (s : State) (v : Tid) (h : Conserved s) : Conserved (evict s v) := by
  intro j
  have hj := h j
  rw [evict_eq]
  simp only [heldTotal] at hj ⊢
  rw [sum_replace (fun _ => 0) (fun t => s.allocation t j) v]
  omega

theorem conserved_rogue (s : State) (h : Conserved s) : Conserved (rogueAttempt s).1 := by
  intro j
  have hj := h j
  cases hc : canRequestAll s rogueTid
  · rw [rogueAttempt_refuse s hc]
    exact hj
  · rw [rogueAttempt_grant s hc]
    simp only [heldTotal] at hj ⊢
    rw [sum_replace (fun t => s.allocation t j + 1) (fun t => s.allocation t j) rogueTid]
    omega

theorem conserved_tryRequest (s : State) (tid : Tid) (r : Res) (h : Conserved s) :
    Conserved (tryRequestResources s tid r).1 := by
  rcases tryRequestResources_cases s tid r with e | ⟨_, _, e⟩ | ⟨_, _, e⟩
  · rw [e]; exact h
  · rw [e]; exact conserved_granted s tid r h
  · rw [e]; exact h

theorem conserved_detector (s : State) (h : Conserved s) :
    Conserved (deadlockDetectorCycle s) := by
  rcases deadlockDetectorCycle_cases s with ⟨_, e⟩ | ⟨_, _, e⟩ | ⟨v, _, _, e⟩
  · rw [e]; exact h
  · rw [e]; exact h
  · rw [e]; exact conserved_evict _ v h

theorem conserved_applyOp (s : State) (op : Op) (h : Conserved s) : Conserved (applyOp s op) := by
  cases op with
  | tryRequest tid r => exact conserved_tryRequest s tid r h
  | rogue => exact conserved_rogue s h
  | release tid => exact conserved_release s tid h
  | detect => exact conserved_detector s h

/-- A property kept by every table operation holds after any sequence of them. -/
theorem run_induction (P : State → Prop) (step : ∀ s op, P s → P (applyOp s op))
    (ops : List Op) : ∀ s, P s → P (run s ops) := by
  induction ops with
  | nil => intro s h; exact h
  | cons op ops ih =>
    intro s h
    exact ih (applyOp s op) (step s op h)

theorem conserved_run (ops : List Op) : Conserved (run reset ops) :=
  run_induction Conserved conserved_applyOp ops reset conserved_reset

theorem needConsistent_reset : NeedConsistent reset := by
  intro t r
  simp [reset]

theorem needConsistent_granted (s : State) (tid : Tid) (r : Res) (h : NeedConsistent s) :
    NeedConsistent (grantedState s tid r) := by
  intro t j
  have hj := h t j
  simp only [grantedState]
  by_cases e : t = tid ∧ j = r
  · simp only [e, and_self, if_true]
    obtain ⟨rfl, rfl⟩ := e
    omega
  · simp only [e, if_false]
    exact hj

theorem needConsistent_release (s : State) (tid : Tid) (h : NeedConsistent s) :
    NeedConsistent (releaseResources s tid) := by
  intro t j
  have hj := h t j
  rw [releaseResources_eq]
  by_cases e : t = tid
  · simp only [e, if_true]
    subst e
    omega
  · simp only [e, if_false]
    exact hj

theorem needConsistent_evict (s : State) (v : Tid) (h : NeedConsistent s) :
    NeedConsistent (evict s v) := by
  intro t j
  have hj := h t j
  rw [evict_eq]
  by_cases e : t = v
  · simp [e]
  · simp only [e, if_false]
    exact hj

theorem needConsistent_rogue (s : State) (h : NeedConsistent s) :
    NeedConsistent (rogueAttempt s).1 := by
  intro t j
  have hj := h t j
  cases hc : canRequestAll s rogueTid
  · rw [rogueAttempt_refuse s hc]
    exact hj
  · rw [rogueAttempt_grant s hc]
    by_cases e : t = rogueTid
    · simp only [e, if_true]
      subst e
      omega
    · simp only [e, if_false]
      exact hj

theorem needConsistent_applyOp (s : State) (op : Op) (h : NeedConsistent s) :
    NeedConsistent (applyOp s op) := by
  cases op with
  | tryRequest tid r =>
    show NeedConsistent (tryRequestResources s tid r).1
    rcases tryRequestResources_cases s tid r with e | ⟨_, _, e⟩ | ⟨_, _, e⟩
    · rw [e]; exact h
    · rw [e]; exact needConsistent_granted s tid r h
    · rw [e]; exact h
  | rogue => exact needConsistent_rogue s h
  | release tid => exact needConsistent_release s tid h
  | detect =>
    show NeedConsistent (deadlockDetectorCycle s)
    rcases deadlockDetectorCycle_cases s with ⟨_, e⟩ | ⟨_, _, e⟩ | ⟨v, _, _, e⟩
    · rw [e]; exact h
    · rw [e]; exact h
    · rw [e]; exact needConsistent_evict _ v h

theorem needConsistent_run (ops : List Op) : NeedConsistent (run reset ops) :=
  run_induction NeedConsistent needConsistent_applyOp ops reset needConsistent_reset

theorem nonNeg_reset : NonNeg reset := by
  refine ⟨maxDemand_nonneg, fun _ _ => le_refl _, ?_⟩
  decide

theorem nonNeg_granted (s : State) (tid : Tid) (r : Res)
    (hc : s.need tid r > 0 ∧ s.available r > 0) (h : NonNeg s) :
    NonNeg (grantedState s tid r) := by
  obtain ⟨hn, ha, hv⟩ := h
  refine ⟨fun t j => ?_, fun t j => ?_, fun j => ?_⟩
  · have := hn t j
    simp only [grantedState]
    by_cases e : t = tid ∧ j = r
    · simp only [e, and_self, if_true]
      obtain ⟨rfl, rfl⟩ := e
      omega
    · simp only [e, if_false]
      exact this
  · have := ha t j
    simp only [grantedState]
    split_ifs <;> omega
  · have := hv j
    simp only [grantedState]
    by_cases e : j = r
    · simp only [e, if_true]
      omega
    · simp only [e, if_false]
      exact this

theorem nonNeg_release (s : State) (tid : Tid) (h : NonNeg s) :
    NonNeg (releaseResources s tid) := by
  obtain ⟨hn, ha, hv⟩ := h
  rw [releaseResources_eq]
  refine ⟨fun t j => ?_, fun t j => ?_, fun j => ?_⟩
  · have := hn t j
    have := ha t j
    show 0 ≤ if t = tid then s.need t j + s.allocation t j else s.need t j
    split_ifs <;> omega
  · have := ha t j
    show 0 ≤ if t = tid then 0 else s.allocation t j
    split_ifs <;> omega
  · have := hv j
    have := ha tid j
    show 0 ≤ s.available j + s.allocation tid j
    omega

theorem nonNeg_evict (s : State) (v : Tid) (h : NonNeg s) : NonNeg (evict s v) := by
  obtain ⟨hn, ha, hv⟩ := h
  rw [evict_eq]
  refine ⟨fun t j => ?_, fun t j => ?_, fun j => ?_⟩
  · have := hn t j
    have := maxDemand_nonneg v j
    show 0 ≤ if t = v then maxDemand v j else s.need t j
    split_ifs <;> omega
  · have := ha t j
    show 0 ≤ if t = v then 0 else s.allocation t j
    split_ifs <;> omega
  · have := hv j
    have := ha v j
    show 0 ≤ s.available j + s.allocation v j
    omega

theorem nonNeg_rogue (s : State) (h : NonNeg s) : NonNeg (rogueAttempt s).1 := by
  cases hc : canRequestAll s rogueTid
  · rw [rogueAttempt_refuse s hc]
    exact h
  · obtain ⟨hn, ha, hv⟩ := h
    have hall := (canRequestAll_iff s rogueTid).1 hc
    rw [rogueAttempt_grant s hc]
    refine ⟨fun t j => ?_, fun t j => ?_, fun j => ?_⟩
    · have := hn t j
      show 0 ≤ if t = rogueTid then s.need t j - 1 else s.need t j
      by_cases e : t = rogueTid
      · simp only [e, if_true]
        have := (hall j).1
        omega
      · simp only [e, if_false]
        exact this
    · have := ha t j
      show 0 ≤ if t = rogueTid then s.allocation t j + 1 else s.allocation t j
      split_ifs <;> omega
    · have := (hall j).2
      show 0 ≤ s.available j - 1
      omega

theorem nonNeg_applyOp (s : State) (op : Op) (h : NonNeg s) : NonNeg (applyOp s op) := by
  cases op with
  | tryRequest tid r =>
    show NonNeg (tryRequestResources s tid r).1
    rcases tryRequestResources_cases s tid r with e | ⟨_, hc, e⟩ | ⟨_, _, e⟩
    · rw [e]; exact h
    · rw [e]; exact nonNeg_granted s tid r hc h
    · rw [e]; exact h
  | rogue => exact nonNeg_rogue s h
  | release tid => exact nonNeg_release s tid h
  | detect =>
    show NonNeg (deadlockDetectorCycle s)
    rcases deadlockDetectorCycle_cases s with ⟨_, e⟩ | ⟨_, _, e⟩ | ⟨v, _, _, e⟩
    · rw [e]; exact h
    · rw [e]; exact h
    · rw [e]; exact nonNeg_evict _ v h

theorem nonNeg_run (ops : List Op) : NonNeg (run reset ops) :=
  run_induction NonNeg nonNeg_applyOp ops reset nonNeg_reset

/-- With no negative allocation, conservation caps `available` at the total. -/
theorem available_le_total (s : State) (hc : Conserved s) (hn : NonNeg s) (r : Res) :
    s.available r ≤ total r := by
  have h1 := hc r
  have h2 : 0 ≤ heldTotal s r := Finset.sum_nonneg fun t _ => hn.2.1 t r
  omega

/-! ## The detector's sums and its victim search -/

theorem foldl_add_eq {α : Type} (c : α → Int) (l : List α) :
    ∀ a : Int, l.foldl (fun acc x => acc + c x) a = a + (l.map c).sum := by
  induction l with
  | nil => intro a; simp
  | cons x l ih =>
    intro a
    simp only [List.foldl_cons, List.map_cons, List.sum_cons, ih]
    omega

theorem foldl_count_eq {α : Type} (p : α → Prop) [DecidablePred p] (l : List α) :
    ∀ a : Int, l.foldl (fun acc x => if p x then acc + 1 else acc) a =
      a + (l.map fun x => if p x then (1 : Int) else 0).sum := by
  induction l with
  | nil => intro a; simp
  | cons x l ih =>
    intro a
    simp only [List.foldl_cons, List.map_cons, List.sum_cons, ih]
    split_ifs <;> omega

theorem totalAvailable_eq (s : State) : totalAvailable s = ∑ r : Res, s.available r := by
  rw [totalAvailable, foldl_add_eq, Fin.sum_univ_def]
  simp

theorem totalRequesting_eq (s : State) : totalRequesting s = (pendingPairs s : Int) := by
  have h : ∀ (acc : Int) (r : Res),
      (List.finRange (NUM_THREADS + 1)).foldl
          (fun acc2 t => if s.request t r = 1 then acc2 + 1 else acc2) acc =
        acc + ∑ t : Tid, if s.request t r = 1 then (1 : Int) else 0 := by
    intro acc r
    rw [foldl_count_eq (fun t => s.request t r = 1), Fin.sum_univ_def]
  simp only [totalRequesting, h]
  rw [foldl_add_eq, ← Fin.sum_univ_def, pendingPairs, Finset.card_filter, Nat.cast_sum,
    Fintype.sum_prod_type_right]
  simp

theorem waiting_iff (s : State) (t : Tid) : waiting s t = true ↔ Pending s t := by
  simp [waiting, Pending, List.mem_finRange]

theorem find?_sorted_some {l : List Tid} (hl : l.Pairwise (· < ·)) (p : Tid → Bool) (v : Tid)
    (h : l.find? p = some v) : p v = true ∧ ∀ t ∈ l, t < v → p t = false := by
  induction l with
  | nil => simp at h
  | cons a l ih =>
    rw [List.pairwise_cons] at hl
    rw [List.find?_cons] at h
    cases hp : p a
    · rw [hp] at h
      obtain ⟨h1, h3⟩ := ih hl.2 h
      refine ⟨h1, fun t ht hlt => ?_⟩
      rcases List.mem_cons.1 ht with rfl | ht
      · exact hp
      · exact h3 t ht hlt
    · rw [hp] at h
      simp only [Option.some.injEq] at h
      subst h
      refine ⟨hp, fun t ht hlt => ?_⟩
      rcases List.mem_cons.1 ht with rfl | ht
      · exact absurd hlt (lt_irrefl _)
      · exact absurd (hl.1 t ht) (not_lt.2 (le_of_lt hlt))

/-- The victim is alive and waiting, and no smaller index is. -/
theorem findVictim_some (s : State) (v : Tid) (h : findVictim s = some v) :
    s.threadAlive v = true ∧ Pending s v ∧
      ∀ t, t < v → ¬ (s.threadAlive t = true ∧ Pending s t) := by
  obtain ⟨h1, h2⟩ := find?_sorted_some (List.pairwise_lt_finRange _) _ v h
  simp only [Bool.and_eq_true, waiting_iff] at h1
  refine ⟨h1.1, h1.2, fun t hlt hc => ?_⟩
  have := h2 t (List.mem_finRange t) hlt
  rw [Bool.and_eq_false_iff] at this
  rcases this with e | e
  · rw [hc.1] at e
    exact Bool.noConfusion e
  · rw [(waiting_iff s t).2 hc.2] at e
    exact Bool.noConfusion e

/-- The search finds nobody exactly when no alive agent is waiting. -/
theorem findVictim_none (s : State) (h : findVictim s = none) :
    ¬ ∃ t, s.threadAlive t = true ∧ Pending s t := by
  rintro ⟨t, ha, hp⟩
  rw [findVictim, List.find?_eq_none] at h
  have := h t (List.mem_finRange t)
  simp only [Bool.and_eq_true, not_and, Bool.not_eq_true] at this
  have e := this ha
  rw [(waiting_iff s t).2 hp] at e
  exact Bool.noConfusion e

/-! ## The claims -/

/-- C1 (conservation). After any sequence of table operations from the reset
table (`tryRequestResources` by any agent on any kind, the rogue's all-kinds
attempt, `releaseResources` by any agent, detector iterations), for every
kind `r`, `available[r]` plus the sum of `allocation[t][r]` over the agents
`0 .. 7` equals `total[r]`. -/
theorem C1_conservation (ops : List Op) (r : Res) :
    (run reset ops).available r + ∑ t : Tid, (run reset ops).allocation t r = total r :=
  conserved_run ops r

/-- C2 (need consistency). After any sequence of table operations from the
reset table, every alive agent `t` has
`allocation[t][r] + need[t][r] = maxDemand[t][r]` for every kind `r`. (The
proof does not use that `t` is alive: the equation holds for evicted agents
as well.) -/
theorem C2_need_consistency (ops : List Op) (t : Tid) (r : Res)
    (_alive : (run reset ops).threadAlive t = true) :
    (run reset ops).allocation t r + (run reset ops).need t r = maxDemand t r :=
  needConsistent_run ops t r

theorem C2_need_consistency_witness :
    (run reset [Op.rogue]).threadAlive rogueTid = true ∧
      (run reset [Op.rogue]).allocation rogueTid 0 + (run reset [Op.rogue]).need rogueTid 0 =
        maxDemand rogueTid 0 :=
  ⟨by decide, C2_need_consistency [Op.rogue] rogueTid 0 (by decide)⟩

/-- C3 (non-negativity and capacity bounds). After any sequence of table
operations from the reset table, for every agent `t` and kind `r`:
`need[t][r] ≥ 0`, `allocation[t][r] ≥ 0` and `0 ≤ available[r] ≤ total[r]`. -/
theorem C3_bounds (ops : List Op) (t : Tid) (r : Res) :
    0 ≤ (run reset ops).need t r ∧ 0 ≤ (run reset ops).allocation t r ∧
      0 ≤ (run reset ops).available r ∧ (run reset ops).available r ≤ total r :=
  ⟨(nonNeg_run ops).1 t r, (nonNeg_run ops).2.1 t r, (nonNeg_run ops).2.2 r,
    available_le_total _ (conserved_run ops) (nonNeg_run ops) r⟩

/-- C4 (`tryAcquireOne`, i.e. `tryRequestResources` with the kind as a
parameter). For an alive agent `tid` and a kind `r`: if `need[tid][r] > 0` and
`available[r] > 0` the call returns true and `available[r]` is one less,
`allocation[tid][r]` one more, `need[tid][r]` one less, `request[tid][r] = 0`
and `isHolding[tid] = true`; otherwise it returns false, `request[tid][r] = 1`
and `available`, `allocation` and `need` are unchanged. -/
theorem C4_tryAcquireOne (s : State) (tid : Tid) (r : Res) (alive : s.threadAlive tid = true) :
    ((s.need tid r > 0 ∧ s.available r > 0) →
      (tryRequestResources s tid r).2 = true ∧
      (tryRequestResources s tid r).1.available r = s.available r - 1 ∧
      (tryRequestResources s tid r).1.allocation tid r = s.allocation tid r + 1 ∧
      (tryRequestResources s tid r).1.need tid r = s.need tid r - 1 ∧
      (tryRequestResources s tid r).1.request tid r = 0 ∧
      (tryRequestResources s tid r).1.isHolding tid = true) ∧
    (¬ (s.need tid r > 0 ∧ s.available r > 0) →
      (tryRequestResources s tid r).2 = false ∧
      (tryRequestResources s tid r).1.request tid r = 1 ∧
      (tryRequestResources s tid r).1.available = s.available ∧
      (tryRequestResources s tid r).1.allocation = s.allocation ∧
      (tryRequestResources s tid r).1.need = s.need) := by
  constructor
  · intro hc
    rw [tryRequestResources_grant s tid r alive hc]
    simp [grantedState]
  · intro hc
    rw [tryRequestResources_refuse s tid r alive hc]
    simp [refusedState]

theorem C4_tryAcquireOne_witness :
    reset.threadAlive 0 = true ∧ (tryRequestResources reset 0 0).2 = true ∧
      (tryRequestResources reset 0 0).1.available 0 = reset.available 0 - 1 :=
  ⟨rfl, ((C4_tryAcquireOne reset 0 0 rfl).1 (by decide)).1,
    ((C4_tryAcquireOne reset 0 0 rfl).1 (by decide)).2.1⟩

/-- C5 (all-or-nothing acquisition). The rogue's all-kinds attempt succeeds
exactly when `need[rogue][r] > 0` and `available[r] > 0` for every kind `r`.
On success every kind has `available` one less, `allocation[rogue]` one more
and `need[rogue]` one less. On failure every `request[rogue][r]` is 1 and
`available`, `allocation` and `need` are unchanged. Hence the set of kinds
whose `allocation[rogue][r]` grew is all kinds or no kind. -/
theorem C5_all_or_nothing (s : State) :
    ((rogueAttempt s).2 = true ↔ ∀ r, s.need rogueTid r > 0 ∧ s.available r > 0) ∧
    ((rogueAttempt s).2 = true → ∀ r,
      (rogueAttempt s).1.available r = s.available r - 1 ∧
      (rogueAttempt s).1.allocation rogueTid r = s.allocation rogueTid r + 1 ∧
      (rogueAttempt s).1.need rogueTid r = s.need rogueTid r - 1) ∧
    ((rogueAttempt s).2 = false →
      (∀ r, (rogueAttempt s).1.request rogueTid r = 1) ∧
      (rogueAttempt s).1.available = s.available ∧
      (rogueAttempt s).1.allocation = s.allocation ∧
      (rogueAttempt s).1.need = s.need) ∧
    ({r | (rogueAttempt s).1.allocation rogueTid r > s.allocation rogueTid r} = Set.univ ∨
      {r | (rogueAttempt s).1.allocation rogueTid r > s.allocation rogueTid r} = ∅) := by
  cases hc : canRequestAll s rogueTid
  · have hn : ¬ ∀ r, s.need rogueTid r > 0 ∧ s.available r > 0 := by
      intro h
      rw [(canRequestAll_iff s rogueTid).2 h] at hc
      exact Bool.noConfusion hc
    rw [rogueAttempt_refuse s hc]
    refine ⟨by simpa using hn, by simp, by simp, Or.inr ?_⟩
    ext r
    simp
  · have hy := (canRequestAll_iff s rogueTid).1 hc
    rw [rogueAttempt_grant s hc]
    refine ⟨by simpa using hy, by simp, by simp, Or.inl ?_⟩
    ext r
    simp

/-- C6 (release postcondition). After `releaseResources(tid)`, for every kind
`r`: `available[r]` has grown by the old `allocation[tid][r]`, `need[tid][r]`
has grown by the same amount, `allocation[tid][r] = 0`, `request[tid][r] = 0`;
`isHolding[tid] = false`; and the rows of every other agent (allocation, need,
request, holding, alive) are unchanged. -/
theorem C6_release_postcondition (s : State) (tid : Tid) :
    (∀ r,
      (releaseResources s tid).available r = s.available r + s.allocation tid r ∧
      (releaseResources s tid).need tid r = s.need tid r + s.allocation tid r ∧
      (releaseResources s tid).allocation tid r = 0 ∧
      (releaseResources s tid).request tid r = 0) ∧
    (releaseResources s tid).isHolding tid = false ∧
    (∀ t, t ≠ tid →
      (releaseResources s tid).allocation t = s.allocation t ∧
      (releaseResources s tid).need t = s.need t ∧
      (releaseResources s tid).request t = s.request t ∧
      (releaseResources s tid).isHolding t = s.isHolding t ∧
      (releaseResources s tid).threadAlive t = s.threadAlive t) := by
  rw [releaseResources_eq]
  refine ⟨fun r => by simp, by simp, fun t ht => ?_⟩
  simp [ht]

/-- C7 (eviction full-reset). When a detector iteration evicts agent `v`,
afterwards `threadAlive[v] = false` and, for every kind `r`, `available[r]`
has grown by the old `allocation[v][r]`, `allocation[v][r] = 0`,
`need[v][r] = maxDemand[v][r]`, `request[v][r] = 0`; `isHolding[v] = false`;
every other agent's allocation, need, request, alive and holding entries are
unchanged. -/
theorem C7_eviction_full_reset (s : State) (v : Tid) (h : Evicts s v) :
    (deadlockDetectorCycle s).threadAlive v = false ∧
    (∀ r,
      (deadlockDetectorCycle s).available r = s.available r + s.allocation v r ∧
      (deadlockDetectorCycle s).allocation v r = 0 ∧
      (deadlockDetectorCycle s).need v r = maxDemand v r ∧
      (deadlockDetectorCycle s).request v r = 0) ∧
    (deadlockDetectorCycle s).isHolding v = false ∧
    (∀ t, t ≠ v →
      (deadlockDetectorCycle s).allocation t = s.allocation t ∧
      (deadlockDetectorCycle s).need t = s.need t ∧
      (deadlockDetectorCycle s).request t = s.request t ∧
      (deadlockDetectorCycle s).threadAlive t = s.threadAlive t ∧
      (deadlockDetectorCycle s).isHolding t = s.isHolding t) := by
  obtain ⟨h1, h2⟩ := h
  have e : deadlockDetectorCycle s = evict { s with deadlockDetected := true } v := by
    simp only [deadlockDetectorCycle, h1, if_true, h2]
  rw [e, evict_eq]
  refine ⟨by simp, fun r => by simp, by simp, fun t ht => ?_⟩
  simp [ht]

theorem C7_eviction_full_reset_witness :
    Evicts (run reset holdAndWaitOps) 0 ∧
      (deadlockDetectorCycle (run reset holdAndWaitOps)).threadAlive 0 = false ∧
      (deadlockDetectorCycle (run reset holdAndWaitOps)).available 0 =
        (run reset holdAndWaitOps).available 0 + (run reset holdAndWaitOps).allocation 0 0 :=
  ⟨by decide,
    (C7_eviction_full_reset (run reset holdAndWaitOps) 0 (by decide)).1,
    ((C7_eviction_full_reset (run reset holdAndWaitOps) 0 (by decide)).2.1 0).1⟩

/-- Every table operation other than the rogue's locked body run for a dead
rogue keeps a cleared dead agent dead and cleared. -/
theorem dead_agent_stays_cleared (s : State) (t : Tid) (op : Op)
    (hop : op = Op.rogue → t ≠ rogueTid)
    (dead : s.threadAlive t = false)
    (clear : ∀ r, s.allocation t r = 0 ∧ s.request t r = 0) :
    (applyOp s op).threadAlive t = false ∧
      ∀ r, (applyOp s op).allocation t r = 0 ∧ (applyOp s op).request t r = 0 := by
  cases op with
  | tryRequest tid r =>
    show (tryRequestResources s tid r).1.threadAlive t = false ∧
      ∀ j, (tryRequestResources s tid r).1.allocation t j = 0 ∧
        (tryRequestResources s tid r).1.request t j = 0
    rcases tryRequestResources_cases s tid r with e | ⟨ha, _, e⟩ | ⟨ha, _, e⟩
    · rw [e]; exact ⟨dead, clear⟩
    · have ht : t ≠ tid := fun h => by rw [h, ha] at dead; exact Bool.noConfusion dead
      rw [e]
      refine ⟨dead, fun j => ?_⟩
      simp only [grantedState, ht, false_and, if_false]
      exact clear j
    · have ht : t ≠ tid := fun h => by rw [h, ha] at dead; exact Bool.noConfusion dead
      rw [e]
      refine ⟨dead, fun j => ?_⟩
      simp only [refusedState, ht, false_and, if_false]
      exact clear j
  | rogue =>
    have ht : t ≠ rogueTid := hop rfl
    show (rogueAttempt s).1.threadAlive t = false ∧
      ∀ j, (rogueAttempt s).1.allocation t j = 0 ∧ (rogueAttempt s).1.request t j = 0
    cases hc : canRequestAll s rogueTid
    · rw [rogueAttempt_refuse s hc]
      refine ⟨dead, fun j => ?_⟩
      simp only [ht, if_false]
      exact clear j
    · rw [rogueAttempt_grant s hc]
      refine ⟨dead, fun j => ?_⟩
      simp only [ht, if_false]
      exact clear j
  | release tid =>
    show (releaseResources s tid).threadAlive t = false ∧
      ∀ j, (releaseResources s tid).allocation t j = 0 ∧ (releaseResources s tid).request t j = 0
    rw [releaseResources_eq]
    refine ⟨dead, fun j => ?_⟩
    by_cases ht : t = tid
    · simp [ht]
    · simp only [ht, if_false]
      exact clear j
  | detect =>
    show (deadlockDetectorCycle s).threadAlive t = false ∧
      ∀ j, (deadlockDetectorCycle s).allocation t j = 0 ∧
        (deadlockDetectorCycle s).request t j = 0
    rcases deadlockDetectorCycle_cases s with ⟨_, e⟩ | ⟨_, _, e⟩ | ⟨v, _, hv, e⟩
    · rw [e]; exact ⟨dead, clear⟩
    · rw [e]; exact ⟨dead, clear⟩
    · rw [e, evict_eq]
      refine ⟨?_, fun j => ?_⟩
      · by_cases ht : t = v
        · simp [ht]
        · simp only [ht, if_false]
          exact dead
      · by_cases ht : t = v
        · simp [ht]
        · simp only [ht, if_false]
          exact clear j

/-- C8 (eviction finality), evaluated at the rogue. After `drainOps` the rogue
is alive, so its test on line 106 passes; the detector iteration that runs
next evicts it, leaving it dead with no allocation and no pending flag. The
locked body of `rogueThread`, which does not test `threadAlive`, then sets all
three pending flags of the dead rogue; and once the workers have released, it
grants the dead rogue one unit of every kind and sets its holding flag. -/
theorem C8_rogue_body_after_eviction :
    (run reset drainOps).threadAlive rogueTid = true ∧
    (deadlockDetectorCycle (run reset drainOps)).threadAlive rogueTid = false ∧
    (∀ r, (deadlockDetectorCycle (run reset drainOps)).allocation rogueTid r = 0 ∧
      (deadlockDetectorCycle (run reset drainOps)).request rogueTid r = 0) ∧
    (∀ r, (rogueAttempt (deadlockDetectorCycle (run reset drainOps))).1.request rogueTid r = 1) ∧
    (∀ r, (rogueAttempt (run (deadlockDetectorCycle (run reset drainOps))
        workersReleaseOps)).1.allocation rogueTid r = 1) ∧
    (rogueAttempt (run (deadlockDetectorCycle (run reset drainOps))
        workersReleaseOps)).1.isHolding rogueTid = true ∧
    (rogueAttempt (run (deadlockDetectorCycle (run reset drainOps))
        workersReleaseOps)).1.threadAlive rogueTid = false := by
  decide

/-- C9 (detector verdict). One detector iteration leaves
`deadlockDetected = true` exactly when the number of (agent, kind) pairs with
`request[t][r] = 1`, counted over all agents `0 .. 7` alive or not, exceeds
the sum of `available[r]` over all kinds. When it does not, the verdict is
Clear, `killedThread = -1`, and `available`, `allocation`, `need`, `request`,
`threadAlive` and `isHolding` are unchanged. -/
theorem C9_detector_verdict (s : State) :
    ((deadlockDetectorCycle s).deadlockDetected = true ↔
      (pendingPairs s : Int) > ∑ r : Res, s.available r) ∧
    (¬ (pendingPairs s : Int) > ∑ r : Res, s.available r →
      (deadlockDetectorCycle s).deadlockDetected = false ∧
      (deadlockDetectorCycle s).killedThread = -1 ∧
      (deadlockDetectorCycle s).available = s.available ∧
      (deadlockDetectorCycle s).allocation = s.allocation ∧
      (deadlockDetectorCycle s).need = s.need ∧
      (deadlockDetectorCycle s).request = s.request ∧
      (deadlockDetectorCycle s).threadAlive = s.threadAlive ∧
      (deadlockDetectorCycle s).isHolding = s.isHolding) := by
  rw [← totalRequesting_eq, ← totalAvailable_eq]
  rcases deadlockDetectorCycle_cases s with ⟨h, e⟩ | ⟨h, _, e⟩ | ⟨v, h, _, e⟩
  · rw [e]
    refine ⟨⟨fun hd => Bool.noConfusion hd, fun hc => absurd hc h⟩, fun _ => ?_⟩
    exact ⟨rfl, rfl, rfl, rfl, rfl, rfl, rfl, rfl⟩
  · rw [e]
    exact ⟨⟨fun _ => h, fun _ => rfl⟩, fun hc => absurd h hc⟩
  · rw [e, evict_eq]
    exact ⟨⟨fun _ => h, fun _ => rfl⟩, fun hc => absurd h hc⟩

/-- C10 (victim selection). When the verdict of a detector iteration is
Deadlocked: if some alive agent has a pending flag, the iteration evicts the
smallest index `v` that is alive with `request[v][r] = 1` for some `r`, sets
`killedThread` to `v`, and `v` is the only agent that goes from alive to
dead; if no alive agent has a pending flag, nobody is evicted and `available`,
`allocation`, `need`, `request`, `threadAlive` and `isHolding` are unchanged. -/
theorem C10_victim_selection (s : State)
    (verdict : (deadlockDetectorCycle s).deadlockDetected = true) :
    ((∃ t, s.threadAlive t = true ∧ Pending s t) →
      ∃ v, s.threadAlive v = true ∧ Pending s v ∧
        (∀ t, t < v → ¬ (s.threadAlive t = true ∧ Pending s t)) ∧
        Evicts s v ∧
        deadlockDetectorCycle s = evict { s with deadlockDetected := true } v ∧
        (deadlockDetectorCycle s).killedThread = (v.val : Int) ∧
        ∀ t, (s.threadAlive t = true ∧ (deadlockDetectorCycle s).threadAlive t = false) ↔
          t = v) ∧
    ((¬ ∃ t, s.threadAlive t = true ∧ Pending s t) →
      (∀ v, ¬ Evicts s v) ∧
      (deadlockDetectorCycle s).available = s.available ∧
      (deadlockDetectorCycle s).allocation = s.allocation ∧
      (deadlockDetectorCycle s).need = s.need ∧
      (deadlockDetectorCycle s).request = s.request ∧
      (deadlockDetectorCycle s).threadAlive = s.threadAlive ∧
      (deadlockDetectorCycle s).isHolding = s.isHolding) := by
  rcases deadlockDetectorCycle_cases s with ⟨_, e⟩ | ⟨_, hv, e⟩ | ⟨v, h, hv, e⟩
  · rw [e] at verdict
    exact Bool.noConfusion verdict
  · refine ⟨fun hex => absurd hex (findVictim_none s hv), fun _ => ?_⟩
    refine ⟨fun v hE => ?_, ?_⟩
    · have := hE.2
      rw [findVictim_flag, hv] at this
      exact Option.noConfusion this
    · rw [e]
      exact ⟨rfl, rfl, rfl, rfl, rfl, rfl⟩
  · obtain ⟨ha, hp, hmin⟩ := findVictim_some s v hv
    refine ⟨fun _ => ⟨v, ha, hp, hmin, ⟨h, hv⟩, e, ?_, fun t => ?_⟩,
      fun hno => absurd ⟨v, ha, hp⟩ hno⟩
    · rw [e, evict_eq]
    · rw [e, evict_eq]
      by_cases ht : t = v
      · subst ht
        simp [ha]
      · simp only [ht, if_false, iff_false, not_and, Bool.not_eq_false]
        exact fun h1 => h1

theorem C10_victim_selection_witness :
    (deadlockDetectorCycle (run reset holdAndWaitOps)).deadlockDetected = true ∧
      (∃ v, Evicts (run reset holdAndWaitOps) v ∧
        (deadlockDetectorCycle (run reset holdAndWaitOps)).killedThread = (v.val : Int)) ∧
      (deadlockDetectorCycle (run reset (drainOps ++ [Op.detect, Op.rogue]))).deadlockDetected
        = true ∧
      (deadlockDetectorCycle (run reset (drainOps ++ [Op.detect, Op.rogue]))).threadAlive =
        (run reset (drainOps ++ [Op.detect, Op.rogue])).threadAlive :=
  ⟨by decide,
    ((C10_victim_selection (run reset holdAndWaitOps) (by decide)).1
        (by decide)).elim
      fun v hv => ⟨v, hv.2.2.2.1, hv.2.2.2.2.2.1⟩,
    by decide,
    ((C10_victim_selection (run reset (drainOps ++ [Op.detect, Op.rogue])) (by decide)).2
        (by decide)).2.2.2.2.2.1⟩

/-! ## Holding flag, round trip and idempotence -/

theorem heldBy_eq (s : State) (t : Tid) :
    heldBy s t = s.allocation t 0 + s.allocation t 1 + s.allocation t 2 := by
  simp [heldBy, Fin.sum_univ_three]

theorem holdingInv_granted (s : State) (tid : Tid) (r : Res) (hinv : HoldingInv s)
    (hnn : ∀ j, 0 ≤ s.allocation tid j) : HoldingInv (grantedState s tid r) := by
  intro t
  have ht := hinv t
  rw [heldBy_eq] at ht ⊢
  by_cases e : t = tid
  · subst e
    have h0 := hnn 0
    have h1 := hnn 1
    have h2 := hnn 2
    rcases res_cases r with rfl | rfl | rfl <;> simp [grantedState] <;> omega
  · simp only [grantedState, e, false_and, if_false]
    exact ht

theorem holdingInv_refused (s : State) (tid : Tid) (r : Res) (hinv : HoldingInv s)
    (hz : ∀ j, s.allocation tid j = 0) : HoldingInv (refusedState s tid r) := by
  intro t
  have ht := hinv t
  rw [heldBy_eq] at ht ⊢
  by_cases e : t = tid
  · subst e
    simp [refusedState, hz]
  · simp only [refusedState, e, if_false]
    exact ht

theorem holdingInv_release (s : State) (tid : Tid) (hinv : HoldingInv s) :
    HoldingInv (releaseResources s tid) := by
  intro t
  have ht := hinv t
  rw [heldBy_eq] at ht ⊢
  rw [releaseResources_eq]
  by_cases e : t = tid
  · simp [e]
  · simp only [e, if_false]
    exact ht

theorem holdingInv_evict (s : State) (v : Tid) (hinv : HoldingInv s) :
    HoldingInv (evict s v) := by
  intro t
  have ht := hinv t
  rw [heldBy_eq] at ht ⊢
  rw [evict_eq]
  by_cases e : t = v
  · simp [e]
  · simp only [e, if_false]
    exact ht

theorem holdingInv_detector (s : State) (hinv : HoldingInv s) :
    HoldingInv (deadlockDetectorCycle s) := by
  rcases deadlockDetectorCycle_cases s with ⟨_, e⟩ | ⟨_, _, e⟩ | ⟨v, _, _, e⟩
  · rw [e]; exact hinv
  · rw [e]; exact hinv
  · rw [e]; exact holdingInv_evict _ v hinv

theorem holdingInv_rogue_grant (s : State) (hinv : HoldingInv s)
    (hnn : ∀ j, 0 ≤ s.allocation rogueTid j) (hc : canRequestAll s rogueTid = true) :
    HoldingInv (rogueAttempt s).1 := by
  intro t
  have ht := hinv t
  rw [heldBy_eq] at ht ⊢
  rw [rogueAttempt_grant s hc]
  by_cases e : t = rogueTid
  · subst e
    have h0 := hnn 0
    have h1 := hnn 1
    have h2 := hnn 2
    simp
    omega
  · simp only [e, if_false]
    exact ht

theorem holdingInv_rogue_refuse (s : State) (hinv : HoldingInv s)
    (hz : ∀ j, s.allocation rogueTid j = 0) (hc : canRequestAll s rogueTid = false) :
    HoldingInv (rogueAttempt s).1 := by
  intro t
  have ht := hinv t
  rw [heldBy_eq] at ht ⊢
  rw [rogueAttempt_refuse s hc]
  by_cases e : t = rogueTid
  · subst e
    simp [hz]
  · simp only [e, if_false]
    exact ht

/-- C11 (holding flag kept by every mutator), as amended. In a state with no
negative allocation where `isHolding[t]` is true exactly when agent `t` holds
at least one unit: the grant branch of `tryRequestResources` and of the rogue's
attempt, `releaseResources` and a detector iteration keep that equivalence
for every agent; the refusing branches, which clear `isHolding` without
looking at `allocation`, keep it when the requesting agent holds nothing. -/
theorem C11_holding_flag (s : State) (hinv : HoldingInv s)
    (hnn : ∀ t r, 0 ≤ s.allocation t r) :
    (∀ tid r, ((tryRequestResources s tid r).2 = true ∨ ∀ j, s.allocation tid j = 0) →
      HoldingInv (tryRequestResources s tid r).1) ∧
    (((rogueAttempt s).2 = true ∨ ∀ j, s.allocation rogueTid j = 0) →
      HoldingInv (rogueAttempt s).1) ∧
    (∀ tid, HoldingInv (releaseResources s tid)) ∧
    HoldingInv (deadlockDetectorCycle s) := by
  refine ⟨fun tid r h => ?_, fun h => ?_, fun tid => holdingInv_release s tid hinv,
    holdingInv_detector s hinv⟩
  · rcases tryRequestResources_cases s tid r with e | ⟨_, _, e⟩ | ⟨_, _, e⟩
    · rw [e]; exact hinv
    · rw [e]; exact holdingInv_granted s tid r hinv (hnn tid)
    · rw [e] at h ⊢
      rcases h with h | h
      · exact Bool.noConfusion h
      · exact holdingInv_refused s tid r hinv h
  · cases hc : canRequestAll s rogueTid
    · rw [rogueAttempt_refuse s hc] at h
      rcases h with h | h
      · exact Bool.noConfusion h
      · exact holdingInv_rogue_refuse s hinv h hc
    · exact holdingInv_rogue_grant s hinv (hnn rogueTid) hc

theorem holdingInv_reset : HoldingInv reset := by
  intro t
  rw [heldBy_eq]
  revert t
  decide

theorem C11_holding_flag_witness :
    HoldingInv reset ∧ HoldingInv (tryRequestResources reset 0 0).1 ∧
      HoldingInv (rogueAttempt reset).1 :=
  ⟨holdingInv_reset,
    (C11_holding_flag reset holdingInv_reset (by decide)).1 0 0 (Or.inl (by decide)),
    (C11_holding_flag reset holdingInv_reset (by decide)).2.1 (Or.inl (by decide))⟩

/-- C11 as stated fails: after agent 1 was granted kind 0 the equivalence
holds for every agent; a second `tryRequestResources(1)` on kind 0 is refused
(its need of kind 0 is used up) and clears `isHolding[1]` while agent 1 still
holds its unit. -/
theorem C11_refusal_clears_flag_of_holder :
    HoldingInv (run reset agentOneHoldsOps) ∧
      ¬ HoldingInv (applyOp (run reset agentOneHoldsOps) (Op.tryRequest 1 0)) := by
  constructor
  · intro t
    rw [heldBy_eq]
    revert t
    decide
  · intro h
    have h1 := h 1
    rw [heldBy_eq] at h1
    revert h1
    decide

/-- C12 (acquire-then-release round trip). For an alive agent `t` that holds
nothing, a granted `tryRequestResources(t)` on any kind followed by
`releaseResources(t)` restores `available`, every agent's `allocation` and
every agent's `need`; so does, when `t` is the rogue, a granted all-kinds
attempt followed by `releaseResources(t)`. -/
theorem C12_round_trip (s : State) (t : Tid) (alive : s.threadAlive t = true)
    (hz : ∀ r, s.allocation t r = 0) :
    (∀ r, (tryRequestResources s t r).2 = true →
      (releaseResources (tryRequestResources s t r).1 t).available = s.available ∧
      (releaseResources (tryRequestResources s t r).1 t).allocation = s.allocation ∧
      (releaseResources (tryRequestResources s t r).1 t).need = s.need) ∧
    (t = rogueTid → (rogueAttempt s).2 = true →
      (releaseResources (rogueAttempt s).1 t).available = s.available ∧
      (releaseResources (rogueAttempt s).1 t).allocation = s.allocation ∧
      (releaseResources (rogueAttempt s).1 t).need = s.need) := by
  constructor
  · intro r hok
    rcases tryRequestResources_cases s t r with e | ⟨_, _, e⟩ | ⟨_, _, e⟩
    · rw [e] at hok; exact Bool.noConfusion hok
    · rw [e, releaseResources_eq]
      refine ⟨?_, ?_, ?_⟩
      · funext j
        by_cases hj : j = r <;> simp [grantedState, hj, hz]
      · funext i j
        by_cases hi : i = t
        · subst hi
          simp [hz]
        · simp [grantedState, hi]
      · funext i j
        by_cases hi : i = t
        · subst hi
          by_cases hj : j = r <;> simp [grantedState, hj, hz]
        · simp [grantedState, hi]
    · rw [e] at hok; exact Bool.noConfusion hok
  · intro ht hok
    subst ht
    cases hc : canRequestAll s rogueTid
    · rw [rogueAttempt_refuse s hc] at hok
      exact Bool.noConfusion hok
    · rw [rogueAttempt_grant s hc, releaseResources_eq]
      refine ⟨?_, ?_, ?_⟩
      · funext j
        simp [hz]
      · funext i j
        by_cases hi : i = rogueTid
        · subst hi
          simp [hz]
        · simp [hi]
      · funext i j
        by_cases hi : i = rogueTid
        · subst hi
          simp [hz]
        · simp [hi]

theorem C12_round_trip_witness :
    (tryRequestResources reset 0 0).2 = true ∧
      (tryRequestResources reset 0 0).1.available 0 = 2 ∧
      (releaseResources (tryRequestResources reset 0 0).1 0).available 0 = 3 ∧
      (releaseResources (tryRequestResources reset 0 0).1 0).available = reset.available ∧
      (releaseResources (rogueAttempt reset).1 rogueTid).available = reset.available :=
  ⟨by decide, by decide, by decide,
    ((C12_round_trip reset 0 rfl (fun _ => rfl)).1 0 (by decide)).1,
    ((C12_round_trip reset rogueTid rfl (fun _ => rfl)).2 rfl (by decide)).1⟩

/-- C13 (release is idempotent). Calling `releaseResources(t)` twice gives the
same state as calling it once; and when agent `t` holds nothing,
`releaseResources(t)` changes no entry of `available`, `allocation` or
`need`. -/
theorem C13_release_idempotent (s : State) (t : Tid) :
    releaseResources (releaseResources s t) t = releaseResources s t ∧
    ((∀ r, s.allocation t r = 0) →
      (releaseResources s t).available = s.available ∧
      (releaseResources s t).allocation = s.allocation ∧
      (releaseResources s t).need = s.need) := by
  constructor
  · rw [releaseResources_eq (releaseResources s t), releaseResources_eq s t]
    ext1
    · funext j
      simp
    · funext i j
      by_cases hi : i = t <;> simp [hi]
    · funext i j
      by_cases hi : i = t <;> simp [hi]
    · funext i j
      by_cases hi : i = t <;> simp [hi]
    · rfl
    · funext i
      by_cases hi : i = t <;> simp [hi]
    · rfl
    · rfl
  · intro hz
    rw [releaseResources_eq]
    refine ⟨?_, ?_, ?_⟩
    · funext j
      simp [hz]
    · funext i j
      by_cases hi : i = t
      · subst hi
        simp [hz]
      · simp [hi]
    · funext i j
      by_cases hi : i = t
      · subst hi
        simp [hz]
      · simp [hi]

/-! ## Scenarios and the detector's record -/

/-- C14 (Scenario B), as amended. On the table with one unit of every kind and
agents 0 and 1 allowed one unit of every kind: agent 0 is granted kind 0 and
agent 1 kind 1; agent 0 is then refused kind 1 and agent 1 refused kind 0,
each setting its pending flag. The detector counts 2 pending requests and 1
available unit (kind 2 is still free); 2 > 1, so the verdict is Deadlocked,
the victim is agent 0, it is evicted and its unit of kind 0 is returned. -/
theorem C14_scenario_B :
    (tryRequestResources scenarioB 0 0).2 = true ∧
    (tryRequestResources (run scenarioB (scenarioBOps.take 1)) 1 1).2 = true ∧
    (tryRequestResources (run scenarioB (scenarioBOps.take 2)) 0 1).2 = false ∧
    (tryRequestResources (run scenarioB (scenarioBOps.take 3)) 1 0).2 = false ∧
    (run scenarioB scenarioBOps).request 0 1 = 1 ∧
    (run scenarioB scenarioBOps).request 1 0 = 1 ∧
    totalRequesting (run scenarioB scenarioBOps) = 2 ∧
    totalAvailable (run scenarioB scenarioBOps) = 1 ∧
    (deadlockDetectorCycle (run scenarioB scenarioBOps)).deadlockDetected = true ∧
    Evicts (run scenarioB scenarioBOps) 0 ∧
    (deadlockDetectorCycle (run scenarioB scenarioBOps)).killedThread = 0 ∧
    (deadlockDetectorCycle (run scenarioB scenarioBOps)).threadAlive 0 = false ∧
    (run scenarioB scenarioBOps).allocation 0 0 = 1 ∧
    (run scenarioB scenarioBOps).available 0 = 0 ∧
    (deadlockDetectorCycle (run scenarioB scenarioBOps)).allocation 0 0 = 0 ∧
    (deadlockDetectorCycle (run scenarioB scenarioBOps)).available 0 = 1 := by
  decide

/-- C14 as stated fails: in Scenario B the detector's `totalAvailable` is 1,
not 0, because the unit of kind 2 is never taken. -/
theorem C14_totalAvailable_is_one :
    totalRequesting (run scenarioB scenarioBOps) = 2 ∧
      totalAvailable (run scenarioB scenarioBOps) = 1 ∧
      totalAvailable (run scenarioB scenarioBOps) ≠ 0 := by
  decide

/-- C15 (Scenario C), as amended. When `available` equals the totals and the
need of the rogue equals its ceiling, which is the totals, the all-kinds
attempt is granted and takes exactly one unit of every kind: `available[r]` becomes
`total[r] - 1` (so `[2,1,1]`, not zero), `allocation[rogue][r]` grows by one
and `isHolding[rogue] = true`. -/
theorem C15_scenario_C (s : State) (havail : ∀ r, s.available r = total r)
    (hneed : ∀ r, s.need rogueTid r = maxDemand rogueTid r) :
    (rogueAttempt s).2 = true ∧
    (∀ r, (rogueAttempt s).1.available r = total r - 1) ∧
    (∀ r, (rogueAttempt s).1.allocation rogueTid r = s.allocation rogueTid r + 1) ∧
    (rogueAttempt s).1.available 0 = 2 ∧
    (rogueAttempt s).1.available 1 = 1 ∧
    (rogueAttempt s).1.available 2 = 1 ∧
    (rogueAttempt s).1.isHolding rogueTid = true := by
  have hc : canRequestAll s rogueTid = true := by
    rw [canRequestAll_iff]
    intro r
    rw [hneed r, havail r]
    revert r
    decide
  rw [rogueAttempt_grant s hc]
  refine ⟨rfl, fun r => ?_, fun r => ?_, ?_, ?_, ?_, ?_⟩
  · simp [havail r]
  · simp
  · simp only [havail]
    decide
  · simp only [havail]
    decide
  · simp only [havail]
    decide
  · simp

theorem C15_scenario_C_witness :
    (∀ r, reset.available r = total r) ∧ (rogueAttempt reset).2 = true ∧
      (rogueAttempt reset).1.available 0 = 2 :=
  ⟨fun _ => rfl, (C15_scenario_C reset (fun _ => rfl) (fun _ => rfl)).1,
    (C15_scenario_C reset (fun _ => rfl) (fun _ => rfl)).2.2.2.1⟩

/-- C15 as stated fails: from the reset table the rogue's attempt is granted
and leaves `available = [2,1,1]`; no kind is drained to zero. -/
theorem C15_available_not_drained :
    (∀ r, reset.available r = total r) ∧
      (∀ r, reset.need rogueTid r = maxDemand rogueTid r) ∧
      (rogueAttempt reset).2 = true ∧
      (rogueAttempt reset).1.available 0 = 2 ∧
      (rogueAttempt reset).1.available 1 = 1 ∧
      (rogueAttempt reset).1.available 2 = 1 ∧
      ¬ ∀ r, (rogueAttempt reset).1.available r = 0 := by
  decide

/-- What the detector does record: the verdict depends on the table alone;
`killedThread` is the victim when one is evicted and `-1` when the verdict is
Clear; with a Deadlocked verdict and no victim it keeps its previous value. -/
theorem detector_record (s : State) :
    ((deadlockDetectorCycle s).deadlockDetected = decide (totalRequesting s > totalAvailable s)) ∧
    (∀ v, Evicts s v → (deadlockDetectorCycle s).killedThread = (v.val : Int)) ∧
    (¬ totalRequesting s > totalAvailable s → (deadlockDetectorCycle s).killedThread = -1) ∧
    (totalRequesting s > totalAvailable s → findVictim s = none →
      (deadlockDetectorCycle s).killedThread = s.killedThread) := by
  rcases deadlockDetectorCycle_cases s with ⟨h, e⟩ | ⟨h, hv, e⟩ | ⟨v, h, hv, e⟩
  · rw [e]
    refine ⟨by simp [h], fun v hE => absurd hE.1 h, fun _ => rfl, fun hc => absurd hc h⟩
  · rw [e]
    refine ⟨by simp [h], fun v hE => ?_, fun hc => absurd h hc, fun _ _ => rfl⟩
    have := hE.2
    rw [findVictim_flag, hv] at this
    exact Option.noConfusion this
  · rw [e, evict_eq]
    refine ⟨by simp [h], fun w hE => ?_, fun hc => absurd h hc, fun _ hn => ?_⟩
    · have := hE.2
      rw [findVictim_flag, hv] at this
      rw [Option.some.inj this]
    · rw [hv] at hn
      exact Option.noConfusion hn

/-- C17 (the recorded result is overwritten every cycle), evaluated where it
fails. After `staleVictimOps` the rogue is dead, `killedThread = 7` from the
iteration that evicted it, and the only pending flags are the dead rogue's.
The next detector iteration finds a deadlock and no victim: nobody changes
from alive to dead, yet `killedThread` is still 7 instead of `-1`; and from
the same table with another previous value (3) the iteration leaves 3. -/
theorem C17_stale_victim_kept :
    (run reset staleVictimOps).killedThread = 7 ∧
    (deadlockDetectorCycle (run reset staleVictimOps)).deadlockDetected = true ∧
    findVictim (run reset staleVictimOps) = none ∧
    (∀ t, (deadlockDetectorCycle (run reset staleVictimOps)).threadAlive t =
      (run reset staleVictimOps).threadAlive t) ∧
    (deadlockDetectorCycle (run reset staleVictimOps)).killedThread = 7 ∧
    (deadlockDetectorCycle (run reset staleVictimOps)).killedThread ≠ -1 ∧
    (deadlockDetectorCycle { run reset staleVictimOps with killedThread := 3 }).killedThread
      = 3 := by
  decide

/-- C19 (a Deadlocked verdict finds a victim when dead agents carry no flag).
If no `available[r]` is negative and every dead agent has all its pending
flags at 0, then `totalRequesting > totalAvailable` implies that some alive
agent has a pending flag, so the victim search succeeds and the detector
takes the eviction branch, not the "no suitable victim" branch. -/
theorem C19_deadlock_finds_victim (s : State) (havail : ∀ r, 0 ≤ s.available r)
    (hdead : ∀ t, s.threadAlive t = false → ∀ r, s.request t r = 0)
    (hgt : totalRequesting s > totalAvailable s) :
    (∃ t, s.threadAlive t = true ∧ Pending s t) ∧
    (∃ v, findVictim s = some v ∧ Evicts s v ∧
      deadlockDetectorCycle s = evict { s with deadlockDetected := true } v) := by
  have h0 : 0 ≤ totalAvailable s := by
    rw [totalAvailable_eq]
    exact Finset.sum_nonneg fun r _ => havail r
  have hpos : 0 < pendingPairs s := by
    have := totalRequesting_eq s
    omega
  obtain ⟨p, hp⟩ := Finset.card_pos.1 hpos
  simp only [Finset.mem_filter, Finset.mem_univ, true_and] at hp
  have halive : s.threadAlive p.1 = true := by
    cases h : s.threadAlive p.1
    · have := hdead p.1 h p.2
      rw [hp] at this
      exact absurd this (by decide)
    · rfl
  have hex : ∃ t, s.threadAlive t = true ∧ Pending s t := ⟨p.1, halive, p.2, hp⟩
  refine ⟨hex, ?_⟩
  cases hv : findVictim s with
  | none => exact absurd hex (findVictim_none s hv)
  | some v =>
    refine ⟨v, rfl, ⟨hgt, hv⟩, ?_⟩
    simp only [deadlockDetectorCycle, hgt, if_true, findVictim_flag, hv]

theorem C19_deadlock_finds_victim_witness :
    totalRequesting (run reset holdAndWaitOps) > totalAvailable (run reset holdAndWaitOps) ∧
      ∃ t, (run reset holdAndWaitOps).threadAlive t = true ∧
        Pending (run reset holdAndWaitOps) t :=
  ⟨by decide,
    (C19_deadlock_finds_victim (run reset holdAndWaitOps) (by decide) (by decide)
      (by decide)).1⟩

/-! ## The loops of the threads: pause, over-reporting, bounded holdings -/

/-- C18 (over-reporting exists). There is a run of the thread loops from the
start state after which no agent holds any unit (`available` equals the
totals, `allocation` is all zero), every agent is alive, and still a detector
iteration declares Deadlocked and evicts the alive agent 0, because the
pending flags set by its refused requests are still set. -/
theorem C18_over_reporting :
    ∃ acts : List Action,
      (∀ r, (runSys start acts).table.available r = total r) ∧
      (∀ t r, (runSys start acts).table.allocation t r = 0) ∧
      (∀ t, (runSys start acts).table.threadAlive t = true) ∧
      (runSys start acts).running = true ∧
      Pending (runSys start acts).table 0 ∧
      (deadlockDetectorCycle (runSys start acts).table).deadlockDetected = true ∧
      Evicts (runSys start acts).table 0 ∧
      (deadlockDetectorCycle (runSys start acts).table).threadAlive 0 = false ∧
      (runSys start (acts ++ [Action.detector, Action.detector])).table =
        deadlockDetectorCycle (runSys start acts).table :=
  ⟨overReportTrace, by decide, by decide, by decide, by decide, by decide, by decide, by decide,
    by decide, rfl⟩

theorem agentOk_zero (p : Pc) (row : Res → Int) (t : Tid) (hz : ∀ r, row r = 0) :
    AgentOk p row t := by
  refine ⟨fun _ => hz, fun r => ?_, fun _ => ?_⟩
  · rw [hz r]
    decide
  · rw [hz 0, hz 1, hz 2]
    decide

theorem agentOk_idle (p : Pc) (row : Res → Int) (t : Tid) (hp : p ≠ Pc.hold)
    (h : AgentOk p row t) (q : Pc) : AgentOk q row t :=
  agentOk_zero q row t (h.1 hp)

theorem sysInv_start : SysInv start := fun t => agentOk_zero _ _ t fun _ => rfl

/-- A step that moves only agent `tid`, and gives every other agent either the
row it had or an empty row, keeps the invariant if the new row of `tid` fits
its new position. -/
theorem sysInv_update (σ τ : Sys) (tid : Tid) (h : SysInv σ)
    (hpc : ∀ t, t ≠ tid → τ.pc t = σ.pc t)
    (hrow : ∀ t, t ≠ tid →
      τ.table.allocation t = σ.table.allocation t ∨ ∀ r, τ.table.allocation t r = 0)
    (htid : AgentOk (τ.pc tid) (τ.table.allocation tid) tid) : SysInv τ := by
  intro t
  by_cases e : t = tid
  · rw [e]
    exact htid
  · rw [hpc t e]
    rcases hrow t e with h1 | h1
    · rw [h1]
      exact h t
    · exact agentOk_zero _ _ t h1

theorem sysInv_release (σ : Sys) (tid : Tid) (h : SysInv σ) :
    SysInv { σ with table := releaseResources σ.table tid, pc := setPc σ.pc tid Pc.head } := by
  refine sysInv_update σ _ tid h (fun t ht => by simp [setPc, ht]) (fun t ht => Or.inl ?_) ?_
  · show (releaseResources σ.table tid).allocation t = σ.table.allocation t
    rw [releaseResources_eq]
    funext j
    simp [ht]
  · refine agentOk_zero _ _ tid fun j => ?_
    show (releaseResources σ.table tid).allocation tid j = 0
    rw [releaseResources_eq]
    simp

theorem sysInv_poll (σ : Sys) (tid : Tid) (hp : σ.pc tid = Pc.head) (h : SysInv σ) :
    SysInv { σ with pc := setPc σ.pc tid Pc.attempt } := by
  refine sysInv_update σ _ tid h (fun t ht => by simp [setPc, ht]) (fun t _ => Or.inl rfl) ?_
  have := h tid
  rw [hp] at this
  exact agentOk_idle _ _ tid (by decide) this _

theorem sysInv_worker (σ : Sys) (tid : Tid) (r : Res) (h : SysInv σ) :
    SysInv (workerThread σ tid r) := by
  unfold workerThread
  split
  · next hp =>
    split
    · exact h
    · exact sysInv_poll σ tid hp h
  · next hp =>
    have hz : ∀ j, σ.table.allocation tid j = 0 := (h tid).1 (by rw [hp]; decide)
    rcases tryRequestResources_cases σ.table tid r with e | ⟨_, _, e⟩ | ⟨_, _, e⟩
    · rw [e]
      simp only [Bool.false_eq_true, if_false]
      refine sysInv_update σ _ tid h (fun t ht => by simp [setPc, ht]) (fun t _ => Or.inl rfl) ?_
      exact agentOk_zero _ _ tid hz
    · rw [e]
      simp only [if_true]
      refine sysInv_update σ _ tid h (fun t ht => by simp [setPc, ht])
        (fun t ht => Or.inl ?_) ?_
      · funext j
        simp [grantedState, ht]
      · refine ⟨fun hc => absurd (by simp [setPc]) hc, fun j => ?_, fun _ => ?_⟩
        · show 0 ≤ (grantedState σ.table tid r).allocation tid j ∧
            (grantedState σ.table tid r).allocation tid j ≤ 1
          simp only [grantedState, true_and, hz]
          split_ifs <;> decide
        · show (grantedState σ.table tid r).allocation tid 0 +
            (grantedState σ.table tid r).allocation tid 1 +
            (grantedState σ.table tid r).allocation tid 2 ≤ 1
          simp only [grantedState, true_and, hz]
          rcases res_cases r with rfl | rfl | rfl <;> decide
    · rw [e]
      simp only [Bool.false_eq_true, if_false]
      refine sysInv_update σ _ tid h (fun t ht => by simp [setPc, ht]) (fun t _ => Or.inl rfl) ?_
      exact agentOk_zero _ _ tid hz
  · exact sysInv_release σ tid h

theorem sysInv_rogue (σ : Sys) (h : SysInv σ) : SysInv (rogueThread σ) := by
  unfold rogueThread
  simp only
  split
  · next hp =>
    split
    · exact h
    · exact sysInv_poll σ rogueTid hp h
  · next hp =>
    have hz : ∀ j, σ.table.allocation rogueTid j = 0 := (h rogueTid).1 (by rw [hp]; decide)
    cases hc : canRequestAll σ.table rogueTid
    · rw [rogueAttempt_refuse σ.table hc]
      simp only [Bool.false_eq_true, if_false]
      refine sysInv_update σ _ rogueTid h (fun t ht => by simp [setPc, ht])
        (fun t _ => Or.inl rfl) ?_
      exact agentOk_zero _ _ rogueTid hz
    · rw [rogueAttempt_grant σ.table hc]
      simp only [if_true]
      refine sysInv_update σ _ rogueTid h (fun t ht => by simp [setPc, ht])
        (fun t ht => Or.inl ?_) ?_
      · funext j
        simp [ht]
      · refine ⟨fun hc => absurd (by simp [setPc]) hc, fun j => ?_, fun hc => absurd rfl hc⟩
        simp [hz]
  · exact sysInv_release σ rogueTid h

theorem sysInv_detector (σ : Sys) (h : SysInv σ) : SysInv (deadlockDetector σ) := by
  unfold deadlockDetector
  split
  · split
    · exact h
    · exact h
  · intro t
    show AgentOk (σ.pc t) ((deadlockDetectorCycle σ.table).allocation t) t
    rcases deadlockDetectorCycle_cases σ.table with ⟨_, e⟩ | ⟨_, _, e⟩ | ⟨v, _, _, e⟩
    · rw [e]; exact h t
    · rw [e]; exact h t
    · rw [e, evict_eq]
      by_cases ht : t = v
      · exact agentOk_zero _ _ t fun j => by simp [ht]
      · have : (fun r => if t = v then (0 : Int) else σ.table.allocation t r) =
            σ.table.allocation t := by
          funext j
          simp [ht]
        show AgentOk (σ.pc t) (fun r => if t = v then (0 : Int) else σ.table.allocation t r) t
        rw [this]
        exact h t

theorem sysInv_step (σ : Sys) (a : Action) (h : SysInv σ) : SysInv (sysStep σ a) := by
  cases a with
  | worker tid r =>
    exact sysInv_worker σ tid.castSucc r h
  | rogue => exact sysInv_rogue σ h
  | detector => exact sysInv_detector σ h
  | pause => exact h
  | resume => exact h

theorem sysInv_run (acts : List Action) : ∀ σ, SysInv σ → SysInv (runSys σ acts) := by
  induction acts with
  | nil => intro σ h; exact h
  | cons a acts ih =>
    intro σ h
    exact ih (sysStep σ a) (sysInv_step σ a h)

/-- C20 (holdings are bounded by the agent protocol). After any run of the
thread loops from the start state, every standard agent `0 .. 6` holds at
most one unit in all, the rogue holds at most one unit of each kind, and an
agent that is about to make its request (past the poll, before its
attempt) or at the head of its loop holds nothing. -/
theorem C20_bounded_holdings (acts : List Action) :
    (∀ tid : Fin NUM_THREADS, heldBy (runSys start acts).table tid.castSucc ≤ 1) ∧
    (∀ r, (runSys start acts).table.allocation rogueTid r ≤ 1) ∧
    (∀ t, (runSys start acts).pc t = Pc.attempt ∨ (runSys start acts).pc t = Pc.head →
      ∀ r, (runSys start acts).table.allocation t r = 0) := by
  have h := sysInv_run acts start sysInv_start
  refine ⟨fun tid => ?_, fun r => ((h rogueTid).2.1 r).2, fun t ht => (h t).1 ?_⟩
  · rw [heldBy_eq]
    exact (h tid.castSucc).2.2 (ne_of_lt (Fin.castSucc_lt_last tid))
  · rcases ht with e | e <;> rw [e] <;> decide

/-- C16 (pause), as amended. While `running = false`, a step of a thread that
is at the head of its loop, where the flag is polled, changes nothing, and
neither Stop nor Start changes the table. A thread that is past the poll
does not look at `running` again in that iteration: a worker or the rogue in
a hold executes `releaseResources`, one about to attempt makes its attempt,
and a detector about to scan runs its iteration, whatever `running` is. -/
theorem C16_pause (σ : Sys) (paused : σ.running = false) :
    (∀ tid r, σ.pc tid.castSucc = Pc.head → sysStep σ (Action.worker tid r) = σ) ∧
    (σ.pc rogueTid = Pc.head → sysStep σ Action.rogue = σ) ∧
    (σ.detectorPc = DetectorPc.head → sysStep σ Action.detector = σ) ∧
    (sysStep σ Action.pause).table = σ.table ∧
    (sysStep σ Action.resume).table = σ.table ∧
    (∀ tid r, σ.pc tid.castSucc = Pc.hold →
      (sysStep σ (Action.worker tid r)).table = releaseResources σ.table tid.castSucc) ∧
    (σ.pc rogueTid = Pc.hold →
      (sysStep σ Action.rogue).table = releaseResources σ.table rogueTid) ∧
    (∀ tid r, σ.pc tid.castSucc = Pc.attempt →
      (sysStep σ (Action.worker tid r)).table =
        (tryRequestResources σ.table tid.castSucc r).1) ∧
    (σ.pc rogueTid = Pc.attempt → (sysStep σ Action.rogue).table = (rogueAttempt σ.table).1) ∧
    (σ.detectorPc = DetectorPc.scan →
      (sysStep σ Action.detector).table = deadlockDetectorCycle σ.table) := by
  refine ⟨fun tid r hp => ?_, fun hp => ?_, fun hp => ?_, rfl, rfl, fun tid r hp => ?_,
    fun hp => ?_, fun tid r hp => ?_, fun hp => ?_, fun hp => ?_⟩
  · simp [sysStep, workerThread, hp, paused]
  · simp [sysStep, rogueThread, hp, paused]
  · simp [sysStep, deadlockDetector, hp, paused]
  · simp [sysStep, workerThread, hp]
  · simp [sysStep, rogueThread, hp]
  · simp only [sysStep, workerThread, hp]
    split <;> rfl
  · simp only [sysStep, rogueThread, hp]
    split <;> rfl
  · simp [sysStep, deadlockDetector, hp]

theorem C16_pause_witness :
    (runSys start pausedHoldTrace).running = false ∧
      sysStep (runSys start [Action.pause]) (Action.worker 0 0) = runSys start [Action.pause] ∧
      (sysStep (runSys start pausedHoldTrace) (Action.worker 0 0)).table =
        releaseResources (runSys start pausedHoldTrace).table 0 :=
  ⟨rfl, (C16_pause (runSys start [Action.pause]) rfl).1 0 0 rfl,
    (C16_pause (runSys start pausedHoldTrace) rfl).2.2.2.2.2.1 0 0 (by decide)⟩

/-- C16 as stated fails. Worker 0 polls, is granted kind 0 and the user
presses Stop during its hold: with `running = false` the next step of worker
0 is `releaseResources(0)`, which changes `allocation[0][0]` from 1 to 0 and
`available[0]` from 2 to 3. And a worker that polled before Stop was pressed
is granted a unit while `running = false`. -/
theorem C16_release_while_paused :
    (runSys start pausedHoldTrace).running = false ∧
    (runSys start pausedHoldTrace).table.allocation 0 0 = 1 ∧
    (runSys start pausedHoldTrace).table.available 0 = 2 ∧
    (sysStep (runSys start pausedHoldTrace) (Action.worker 0 0)).running = false ∧
    (sysStep (runSys start pausedHoldTrace) (Action.worker 0 0)).table.allocation 0 0 = 0 ∧
    (sysStep (runSys start pausedHoldTrace) (Action.worker 0 0)).table.available 0 = 3 ∧
    (runSys start pausedAttemptTrace).running = false ∧
    (runSys start pausedAttemptTrace).table.allocation 0 0 = 0 ∧
    (sysStep (runSys start pausedAttemptTrace) (Action.worker 0 0)).table.allocation 0 0 = 1 := by
  decide

end Deadlock
